import Mathlib

/-!
# The watch loop of `realize` (`watcher/watcher.go`)

A shallow embedding of the file watcher: path classification, the two watch
handlers (the walk callback of `watchByPolling` and the event case of
`watching`), the tree scan `walks`, the toolchain driver `routines` and the
start-up sequence of both watch modes.

Conventions.
* A Go string is a list of characters (`GoString`); the functions below only
  compare elements with `.`, `_` and `/`, so indices count list positions.
* A Go `error` value is an `Option GoString`: `none` is `nil`, `some m` an
  error whose `Error()` text is `m`.
* A `time.Time` is a number of nanoseconds since the zero time.
* A result of type `Option _` whose `none` is described as a run-time panic
  stands for Go aborting the goroutine (slice bounds, nil dereference).
-/

namespace Realize

abbrev GoString := List Char

/-! ## Go standard library: `strings`, `path/filepath` (Unix) -/

/-- Go `os.IsPathSeparator` on Unix. -/
def IsPathSeparator (c : Char) : Bool := c == '/'

/-- Loop of `filepath.Ext`: the argument is `i + 1` for the loop index `i`, which
runs downwards from `len(path) - 1` while `path[i]` is not a separator. -/
def extLoop (path : GoString) : Nat → GoString
  | 0 => []
  | i + 1 =>
    match path.get? i with
    | none => []
    | some c =>
      if IsPathSeparator c then []
      else if c == '.' then path.drop i
      else extLoop path i

/-- Go `filepath.Ext`: the suffix beginning at the final dot in the final
element of `path`; empty if there is no dot. -/
def Ext (path : GoString) : GoString := extLoop path path.length

/-- Scan of `strings.Index`: `i` is the offset of the remaining text in the
whole string. -/
def indexFrom (substr : GoString) : GoString → Nat → Int
  | [], i => if substr.isPrefixOf [] then (i : Int) else -1
  | c :: cs, i => if substr.isPrefixOf (c :: cs) then (i : Int) else indexFrom substr cs (i + 1)

/-- Go `strings.Index`: index of the first instance of `substr` in `s`, or `-1`. -/
def Index (s substr : GoString) : Int := indexFrom substr s 0

/-- Go `strings.Contains`. -/
def Contains (s substr : GoString) : Bool := decide (0 ≤ Index s substr)

/-- Go `strings.HasPrefix`. -/
def HasPrefix (s pre : GoString) : Bool := pre.isPrefixOf s

/-- Go `strings.HasSuffix`. -/
def HasSuffix (s suf : GoString) : Bool := suf.isSuffixOf s

/-- Go slice expression `s[:i]` (also `s[0:i]`); `none` is the run-time panic
for an index out of range. -/
def sliceTo (s : GoString) (i : Int) : Option GoString :=
  if 0 ≤ i ∧ i ≤ (s.length : Int) then some (s.take i.toNat) else none

/-- Go slice expression `s[i:]`; `none` is the run-time panic for an index out
of range. -/
def sliceFrom (s : GoString) (i : Int) : Option GoString :=
  if 0 ≤ i ∧ i ≤ (s.length : Int) then some (s.drop i.toNat) else none

/-- Backtracking loop of `filepath.Clean` for a `..` element:
`for out.w > dotdot && !os.IsPathSeparator(out.index(out.w)) { out.w-- }`,
started at the write index `w`. -/
def backLoop (buf : GoString) (dotdot : Nat) : Nat → Nat
  | 0 => 0
  | w + 1 =>
    if dotdot < w + 1 ∧ ¬ IsPathSeparator (buf.getD (w + 1) '/') then backLoop buf dotdot w
    else w + 1

/-- Main loop of `filepath.Clean`: `r` is the read index into `path`, `out` the
bytes written so far (`out.w` is its length), `dotdot` the index where `..`
must stop. Every iteration advances `r`, so `len(path) + 1` rounds suffice. -/
def cleanLoop (path : GoString) (rooted : Bool) : Nat → Nat → GoString → Nat → GoString
  | 0, _, out, _ => out
  | fuel + 1, r, out, dotdot =>
    if r < path.length then
      let c0 := path.getD r '/'
      let sepAt : Nat → Bool := fun k => IsPathSeparator (path.getD k '/')
      if IsPathSeparator c0 then
        cleanLoop path rooted fuel (r + 1) out dotdot
      else if c0 == '.' ∧ (r + 1 = path.length ∨ sepAt (r + 1)) then
        cleanLoop path rooted fuel (r + 1) out dotdot
      else if c0 == '.' ∧ path.getD (r + 1) '/' == '.' ∧ (r + 2 = path.length ∨ sepAt (r + 2)) then
        if dotdot < out.length then
          cleanLoop path rooted fuel (r + 2) (out.take (backLoop out dotdot (out.length - 1))) dotdot
        else if ¬ rooted then
          let out1 := if 0 < out.length then out ++ ['/'] else out
          let out2 := out1 ++ ['.', '.']
          cleanLoop path rooted fuel (r + 2) out2 out2.length
        else
          cleanLoop path rooted fuel (r + 2) out dotdot
      else
        let out1 :=
          if (rooted ∧ out.length ≠ 1) ∨ (¬ rooted ∧ out.length ≠ 0) then out ++ ['/'] else out
        let el := (path.drop r).takeWhile (fun c => ! IsPathSeparator c)
        cleanLoop path rooted fuel (r + el.length) (out1 ++ el) dotdot
    else out

/-- Go `filepath.Clean` (Unix, no volume name). -/
def Clean (path : GoString) : GoString :=
  if path = [] then ['.']
  else
    let rooted := IsPathSeparator (path.getD 0 ' ')
    let out := if rooted then cleanLoop path rooted (path.length + 1) 1 ['/'] 1
               else cleanLoop path rooted (path.length + 1) 0 [] 0
    if out.length = 0 then ['.'] else out

/-- Loop of `filepath.Dir`: the argument is `i + 1` for the index `i` that runs
downwards while `path[i]` is not a separator; the result is the final `i + 1`. -/
def dirLoop (path : GoString) : Nat → Nat
  | 0 => 0
  | i + 1 => if IsPathSeparator (path.getD i ' ') then i + 1 else dirLoop path i

/-- Go `filepath.Dir` (Unix): all but the last element of `path`, cleaned. -/
def Dir (path : GoString) : GoString := Clean (path.take (dirLoop path path.length))

/-- Go `strings.Join` with separator `/`. -/
def joinSep : List GoString → GoString
  | [] => []
  | [e] => e
  | e :: es => e ++ '/' :: joinSep es

/-- Go `filepath.Join` (Unix): the elements from the first non-empty one on,
joined with `/` and cleaned; the empty string if all are empty. -/
def Join : List GoString → GoString
  | [] => []
  | e :: es => if e ≠ [] then Clean (joinSep (e :: es)) else Join es

/-- Go `filepath.IsAbs` (Unix). -/
def IsAbs (path : GoString) : Bool := HasPrefix path ['/']

/-- Modelled from the spec: `inArray(str, list)` is declared elsewhere in the
package; the spec reads its use as "its extension is in the watched-extension
set", that is, membership of `str` in `list`. -/
def inArray (str : GoString) (list : List GoString) : Bool := list.contains str

/-! ## Path classification (watcher.go lines 62-71, and again 140-149) -/

/-- The locals computed from a changed path: `ext`, `i`, the slice
`changed[:i]` (here `stem`), `file` and `path`. -/
structure Classified where
  ext : GoString
  i : Int
  stem : GoString
  file : GoString
  path : GoString
deriving DecidableEq, Repr

/-- Lines 62-67 of `watchByPolling`: the extension, cut at its first underscore. -/
def canonicalExt (changed : GoString) : Option GoString :=
  let index := Index (Ext changed) ['_']
  if index = -1 then some (Ext changed) else sliceTo (Ext changed) index

/-- Lines 62-70 of `watchByPolling`: `none` is a slice-bounds panic. Lines
140-148 of `watching` repeat them on `event.Name`; they are transcribed on
their own as `classifyEvent` and shown to compute the same. -/
def classify (changed : GoString) : Option Classified :=
  match canonicalExt changed with
  | none => none
  | some ext =>
    let i := Index changed (Ext changed)
    match sliceTo changed i with
    | none => none
    | some stem => some { ext := ext, i := i, stem := stem, file := stem ++ ext, path := Dir stem }

/-- The condition of line 71:
`changed[:i] != "" && inArray(ext, p.Watcher.Exts)`. -/
def qualifies (c : Classified) (exts : List GoString) : Bool :=
  c.stem ≠ [] && inArray c.ext exts

/-- Lines 140-145 of `watching`, transcribed on their own: the extension of
`event.Name`, cut at its first underscore. -/
def eventExt (name : GoString) : Option GoString :=
  let index := Index (Ext name) ['_']
  if index = -1 then some (Ext name) else sliceTo (Ext name) index

/-- Lines 140-148 of `watching`, transcribed on their own: the locals `ext`,
`i`, `event.Name[:i]`, `file` and `path`; `none` is a slice-bounds panic. -/
def classifyEvent (name : GoString) : Option Classified :=
  match eventExt name with
  | none => none
  | some ext =>
    let i := Index name (Ext name)
    match sliceTo name i with
    | none => none
    | some stem => some { ext := ext, i := i, stem := stem, file := stem ++ ext, path := Dir stem }

/-! ## Time (`time.Time`, `Truncate`, `After`) -/

/-- Go `time.Second` as a `time.Duration` (nanoseconds). -/
def Second : Nat := 1000000000

/-- Go `Time.Truncate`: round down to a multiple of `d` since the zero time;
`t` itself when `d` is not positive. -/
def Truncate (t d : Nat) : Nat := if d = 0 then t else t - t % d

/-- Go `Time.After`: `t.After(u)` reports whether `t` is after `u`. -/
def After (t u : Nat) : Bool := decide (u < t)

/-! ## Project state and the output buffer -/

/-- One record of the output buffer (`BufferOut`), with the fields this file
sets. The Go field `Type` is spelled `Typ`. -/
structure BufferOut where
  Time : Nat
  Text : GoString
  Path : GoString := []
  Typ : GoString := []
  Stream : GoString := []
deriving DecidableEq, Repr

/-- The three in-memory sequences of `p.Buffer`. -/
structure Buffer where
  StdOut : List BufferOut := []
  StdLog : List BufferOut := []
  StdErr : List BufferOut := []
deriving DecidableEq, Repr

/-- The watcher section of a project (`p.Watcher`). -/
structure Watcher where
  Paths : List GoString
  Exts : List GoString
  Ignore : List GoString := []
  Before : List GoString := []
  After : List GoString := []
  Preview : Bool := false
deriving DecidableEq, Repr

/-- The fields of `Project` read or written by `watcher.go`. -/
structure Project where
  Name : GoString := []
  Path : GoString := []
  Run : Bool := false
  Bin : Bool := false
  Build : Bool := false
  Fmt : Bool := false
  Test : Bool := false
  Generate : Bool := false
  Watcher : Watcher
  LastChangedOn : Nat := 0
  base : GoString := []
  path : GoString := []
  Buffer : Buffer := {}
deriving DecidableEq, Repr

/-- What `os.FileInfo` tells the code: `IsDir()` and `ModTime()`. -/
structure FileInfo where
  IsDir : Bool
  ModTime : Nat
deriving DecidableEq, Repr

/-- A file tree as `filepath.Walk` sees it: a file, or a directory with its
entries in the order `Walk` reads them. -/
inductive Node where
  | file (name : GoString) (modTime : Nat)
  | dir (name : GoString) (modTime : Nat) (entries : List Node)
deriving Repr

/-- Name of the entry. -/
def Node.name : Node → GoString
  | .file n _ => n
  | .dir n _ _ => n

/-- The `os.FileInfo` of the entry. -/
def Node.info : Node → FileInfo
  | .file _ t => { IsDir := false, ModTime := t }
  | .dir _ t _ => { IsDir := true, ModTime := t }

/-- An external process or goroutine started by the code, in program order. -/
inductive Call where
  /-- `p.goTools(dir, name, args...)` -/
  | goTools (dir : GoString) (args : List GoString)
  /-- `p.goInstall()` -/
  | goInstall
  /-- `p.goBuild()` -/
  | goBuild
  /-- `p.afterBefore(command)` -/
  | afterBefore (command : GoString)
  /-- `go p.goRun(channel, runner, wr)` -/
  | goRun (channel : Nat)
  /-- `go p.run(channel, wr)` -/
  | run (channel : Nat)
  /-- `go p.routines(channel, &wr)` -/
  | routines (channel : Nat)
deriving DecidableEq, Repr

/-- Everything the code obtains from outside itself while it handles one step
(one walk entry, one event, one scan, one run of `routines`). `now n` is the
reading of `time.Now()` taken by the statement at source line `n`; a tool
outcome is its captured output and its error. -/
structure World where
  now : Nat → Nat
  ToUpper : GoString → GoString
  goTools : GoString → List GoString → GoString × Option GoString
  goInstall : GoString × Option GoString
  goBuild : GoString × Option GoString
  afterBefore : GoString → GoString × GoString
  /-- text of `big.NewFloat(time.Since(start).Seconds()).Text(102, 3)` at a source line -/
  since : Nat → GoString
  /-- the file tree found at a path, `none` when `os.Stat(path)` returns an error -/
  fs : GoString → Option Node
  /-- result of `os.Getwd()` -/
  Getwd : GoString
  /-- result of `p.Wdir()` -/
  Wdir : GoString
  /-- error of `fsnotify.NewWatcher()` -/
  NewWatcher : Option GoString
  /-- error of the fsnotify watcher for `Add(path)` -/
  fsAdd : GoString → Option GoString
  /-- whether the `runner` channel of `run` receives a value -/
  runner : Bool

/-- `p.print(t, o, msg, stream)` as far as the in-memory buffer goes: the
record joins the sequence selected by `t`. Writing to the log files and to the
console is left to the collaborators that own them. -/
def print (p : Project) (t : GoString) (o : BufferOut) : Project :=
  if t = "out".toList then { p with Buffer := { p.Buffer with StdOut := p.Buffer.StdOut ++ [o] } }
  else if t = "log".toList then { p with Buffer := { p.Buffer with StdLog := p.Buffer.StdLog ++ [o] } }
  else if t = "error".toList then { p with Buffer := { p.Buffer with StdErr := p.Buffer.StdErr ++ [o] } }
  else p

/-- A project together with the calls it has issued so far. -/
structure Run where
  p : Project
  calls : List Call := []
deriving DecidableEq, Repr

/-- `p.fmt(path)` (lines 235-245); returns the error. -/
def fmt (w : World) (r : Run) (path : GoString) : Run × Option GoString :=
  if r.p.Fmt ∧ HasSuffix path ".go".toList then
    let args := ["gofmt".toList, "-s".toList, "-w".toList, "-e".toList, path]
    let res := w.goTools r.p.base args
    let r1 : Run := { r with calls := r.calls ++ [Call.goTools r.p.base args] }
    match res.2 with
    | some e =>
      let out : BufferOut := { Time := w.now 239, Text := "there are some errors in".toList,
                               Path := path, Typ := "Go Fmt".toList, Stream := res.1 }
      ({ r1 with p := print r1.p "error".toList out }, some e)
    | none => (r1, none)
  else (r, none)

/-- `p.generate(path)` (lines 248-258); returns the error. -/
def generate (w : World) (r : Run) (path : GoString) : Run × Option GoString :=
  if r.p.Generate then
    let args := ["go".toList, "generate".toList]
    let res := w.goTools path args
    let r1 : Run := { r with calls := r.calls ++ [Call.goTools path args] }
    match res.2 with
    | some e =>
      let out : BufferOut := { Time := w.now 252, Text := "there are some errors in".toList,
                               Path := path, Typ := "Go Generate".toList, Stream := res.1 }
      ({ r1 with p := print r1.p "error".toList out }, some e)
    | none => (r1, none)
  else (r, none)

/-- `p.test(path)` (lines 261-271); returns the error. -/
def test (w : World) (r : Run) (path : GoString) : Run × Option GoString :=
  if r.p.Test then
    let args := ["go".toList, "test".toList]
    let res := w.goTools path args
    let r1 : Run := { r with calls := r.calls ++ [Call.goTools path args] }
    match res.2 with
    | some e =>
      let out : BufferOut := { Time := w.now 265, Text := "there are some errors in".toList,
                               Path := path, Typ := "Go Test".toList, Stream := res.1 }
      ({ r1 with p := print r1.p "error".toList out }, some e)
    | none => (r1, none)
  else (r, none)

/-- `p.install()` (lines 176-193); returns the error. -/
def install (w : World) (r : Run) : Run × Option GoString :=
  if r.p.Bin then
    let res := w.goInstall
    let r1 : Run := { r with calls := r.calls ++ [Call.goInstall] }
    match res.2 with
    | some e =>
      let out : BufferOut := { Time := w.now 183, Text := e, Typ := "Go Install".toList,
                               Stream := res.1 }
      ({ r1 with p := print r1.p "error".toList out }, some e)
    | none =>
      let out : BufferOut := { Time := w.now 187,
                               Text := "Installed after ".toList ++ w.since 187 ++ " s".toList }
      ({ r1 with p := print r1.p "log".toList out }, none)
  else (r, none)

/-- `p.build()` (lines 215-232); returns the error. -/
def build (w : World) (r : Run) : Run × Option GoString :=
  if r.p.Build then
    let res := w.goBuild
    let r1 : Run := { r with calls := r.calls ++ [Call.goBuild] }
    match res.2 with
    | some e =>
      let out : BufferOut := { Time := w.now 222, Text := e, Typ := "Go Build".toList,
                               Stream := res.1 }
      ({ r1 with p := print r1.p "error".toList out }, some e)
    | none =>
      let out : BufferOut := { Time := w.now 226,
                               Text := "Builded after ".toList ++ w.since 226 ++ " s".toList }
      ({ r1 with p := print r1.p "log".toList out }, none)
  else (r, none)

/-- `p.run(channel, wr)` (lines 196-212): starts the worker when `p.Run` is
set and reports once the `runner` channel delivers. -/
def run (w : World) (r : Run) (channel : Nat) : Run :=
  if r.p.Run then
    let r1 : Run := { r with calls := r.calls ++ [Call.goRun channel] }
    if w.runner then
      let out : BufferOut := { Time := w.now 206,
                               Text := "Has been run after ".toList ++ w.since 206 ++ " s".toList }
      { r1 with p := print r1.p "log".toList out }
    else r1
  else r

/-- `p.routines(channel, wr)` (lines 383-391): install, build, then
`go p.run(channel, wr)` when neither returned an error. The pair holds the
state after the two steps and the errors they returned. -/
def routines (w : World) (r : Run) (channel : Nat) : Run × Option GoString × Option GoString :=
  let a := install w r
  let b := build w a.1
  if a.2 = none ∧ b.2 = none then
    ({ b.1 with calls := b.1.calls ++ [Call.run channel] }, a.2, b.2)
  else (b.1, a.2, b.2)

/-! ## Watch strategies -/

/-- The `pollWatcher` struct: its map `paths`, latest binding first. -/
structure pollWatcher where
  paths : List (GoString × Bool) := []
deriving DecidableEq, Repr

/-- `pollWatcher.isWatching` (lines 23-26): `a, b := w.paths[path]; return a && b`. -/
def pollWatcher.isWatching (pw : pollWatcher) (path : GoString) : Bool :=
  match pw.paths.lookup path with
  | some a => a && true
  | none => false && false

/-- `pollWatcher.Add` (lines 28-34). -/
def pollWatcher.Add (pw : pollWatcher) (path : GoString) : pollWatcher × Option GoString :=
  ({ paths := (path, true) :: pw.paths }, none)

/-- A value of the `watcher` interface (line 318): the polling set or an
fsnotify watcher, of which only the successfully added paths are kept. -/
inductive WatcherImpl where
  | poll (pw : pollWatcher)
  | fsnotify (added : List GoString)
deriving DecidableEq, Repr

/-- `watcher.Add(path)` through the interface. -/
def WatcherImpl.Add (w : World) : WatcherImpl → GoString → WatcherImpl × Option GoString
  | .poll pw, path => (.poll (pw.Add path).1, (pw.Add path).2)
  | .fsnotify added, path =>
    match w.fsAdd path with
    | some e => (.fsnotify added, some e)
    | none => (.fsnotify (added ++ [path]), none)

/-! ## `filepath.Walk` -/

/-- An error returned by a walk callback: the sentinel `filepath.SkipDir` or
any other error. -/
inductive WalkErr where
  | SkipDir
  | other (msg : GoString)
deriving DecidableEq, Repr

mutual
/-- Go `filepath.walk` on the entry `node` found at `path`. An outer `none` is
a panic inside the callback. -/
def walkNode {σ : Type} (fn : σ → GoString → FileInfo → Option GoString → Option (σ × Option WalkErr))
    (path : GoString) : Node → σ → Option (σ × Option WalkErr)
  | .file _ t, s => fn s path { IsDir := false, ModTime := t } none
  | .dir _ t entries, s =>
    match fn s path { IsDir := true, ModTime := t } none with
    | none => none
    | some (s1, some e) => some (s1, some e)
    | some (s1, none) => walkEntries fn path entries s1
/-- The loop of `filepath.walk` over the names read from a directory. -/
def walkEntries {σ : Type} (fn : σ → GoString → FileInfo → Option GoString → Option (σ × Option WalkErr))
    (path : GoString) : List Node → σ → Option (σ × Option WalkErr)
  | [], s => some (s, none)
  | n :: rest, s =>
    match walkNode fn (Join [path, n.name]) n s with
    | none => none
    | some (s1, none) => walkEntries fn path rest s1
    | some (s1, some e) =>
      if ¬ n.info.IsDir ∨ e ≠ WalkErr.SkipDir then some (s1, some e)
      else walkEntries fn path rest s1
end

/-- Go `filepath.Walk` on an existing root: `SkipDir` from the walk is turned
into a nil error. -/
def Walk {σ : Type} (fn : σ → GoString → FileInfo → Option GoString → Option (σ × Option WalkErr))
    (root : GoString) (node : Node) (s : σ) : Option (σ × Option WalkErr) :=
  match walkNode fn root node s with
  | none => none
  | some (s1, some WalkErr.SkipDir) => some (s1, none)
  | some (s1, e) => some (s1, e)

/-! ## The tree scan `walks` (lines 323-380) -/

/-- `p.ignore(str)` (lines 373-380). -/
def ignore (p : Project) (str : GoString) : Bool :=
  p.Watcher.Ignore.any (fun v => Contains str (Join [p.base, v]))

/-- State of one scan: the project with its calls, the watcher being filled
and the two counters. -/
structure Scan where
  r : Run
  watcher : WatcherImpl
  files : Nat := 0
  folders : Nat := 0
deriving DecidableEq, Repr

/-- The condition of line 328 for registering a visited entry. -/
def shouldAdd (p : Project) (path : GoString) (info : FileInfo) : Bool :=
  ((info.IsDir && (Ext path).length == 0 && ! HasPrefix path ".".toList)
      && ! Contains path "/.".toList)
    || inArray (Ext path) p.Watcher.Exts

/-- The walk callback of `walks` (lines 326-346). -/
def walksFn (w : World) (sc : Scan) (path : GoString) (info : FileInfo)
    (_err : Option GoString) : Scan × Option WalkErr :=
  if ! ignore sc.r.p path then
    if shouldAdd sc.r.p path info then
      let a := sc.watcher.Add w path
      if a.2 ≠ none then ({ sc with watcher := a.1 }, some WalkErr.SkipDir)
      else if inArray (Ext path) sc.r.p.Watcher.Exts then
        ({ sc with watcher := a.1, files := sc.files + 1, r := (fmt w sc.r path).1 }, none)
      else
        ({ sc with watcher := a.1, folders := sc.folders + 1,
                   r := (test w (generate w sc.r path).1 path).1 }, none)
    else (sc, none)
  else (sc, none)

/-- Lines 348-355: where the project lives. -/
def setBase (w : World) (p : Project) : Project :=
  if p.path = ".".toList ∨ p.path = "/".toList then { p with base := w.Getwd, path := w.Wdir }
  else if IsAbs p.path then { p with base := p.path }
  else { p with base := Join [w.Getwd, p.path] }

/-- The loop of lines 356-365 over `p.Watcher.Paths`; the error is that of a
missing root. A panic of the callback cannot arise: `walksFn` has none. -/
def walksLoop (w : World) : List GoString → Scan → Scan × Option GoString
  | [], sc => (sc, none)
  | dir :: rest, sc =>
    let base := Join [sc.r.p.base, dir]
    match w.fs base with
    | some node =>
      match Walk (fun s pa i e => some (walksFn w s pa i e)) base node sc with
      | some (sc1, _) => walksLoop w rest sc1
      | none => walksLoop w rest sc
    | none => (sc, some (base ++ " path doesn't exist".toList))

/-- `p.walks(watcher)` (lines 323-370). -/
def walks (w : World) (r : Run) (watcher : WatcherImpl) : Scan × Option GoString :=
  let sc0 : Scan := { r := { r with p := setBase w r.p }, watcher := watcher }
  match walksLoop w sc0.r.p.Watcher.Paths sc0 with
  | (sc, some e) => (sc, some e)
  | (sc, none) =>
    let out : BufferOut :=
      { Time := w.now 367,
        Text := "Watching ".toList ++ (Nat.repr sc.files).toList ++ " files/s ".toList
                  ++ (Nat.repr sc.folders).toList ++ " folder/s".toList }
    ({ sc with r := { sc.r with p := print sc.r.p "log".toList out } }, none)

/-! ## Hooks: `cmd` (lines 274-316) -/

/-- The body of `cast` for one command (lines 279-297). -/
def castOne (w : World) (r : Run) (command : GoString) : Run :=
  let res := w.afterBefore command
  let errors := res.1
  let logs := res.2
  let r0 : Run := { r with calls := r.calls ++ [Call.afterBefore command] }
  let out : BufferOut := { Time := w.now 281, Text := command, Typ := "After/Before".toList }
  let p1 := if logs ≠ [] then print r0.p "log".toList out else r0.p
  let p2 := if errors ≠ [] then print p1 "error".toList out else p1
  let p3 := if logs ≠ []
            then print p2 "log".toList { Time := w.now 290, Text := logs, Typ := "After/Before".toList }
            else p2
  let p4 := if errors ≠ []
            then print p3 "error".toList { Time := w.now 295, Text := errors, Typ := "After/Before".toList }
            else p3
  { r0 with p := p4 }

/-- The synchronous part of `p.cmd(exit)`: the before-commands, in order. -/
def cmd (w : World) (r : Run) : Run :=
  r.p.Watcher.Before.foldl (castOne w) r

/-! ## The watch loops -/

/-- The locals of a running watch loop: the project with its calls, and the
restart channel. Channels are numbered in the order `make` returns them;
`made` counts them and `closed` lists the ones closed, latest first. -/
structure Session where
  r : Run
  channel : Nat := 0
  made : Nat := 1
  closed : List Nat := []
deriving DecidableEq, Repr

/-- Go `close(channel)`; closing a closed channel panics. -/
def Session.close (s : Session) : Option Session :=
  if s.channel ∈ s.closed then none else some { s with closed := s.channel :: s.closed }

/-- Go `channel = make(chan bool)`. -/
def Session.make (s : Session) : Session :=
  { s with channel := s.made, made := s.made + 1 }

/-- Lines 77-80 and 154-157: `if p.Run { close(channel); channel = make(chan bool) }`. -/
def Session.restart (s : Session) : Option Session :=
  if s.r.p.Run then s.close.map Session.make else some s

/-- Lines 82-85 and 159-162: `p.fmt(file)`, `p.test(path)`, `p.generate(path)`,
`go p.routines(channel, &wr)`. -/
def Session.react (w : World) (s : Session) (c : Classified) : Session :=
  let r1 := (fmt w s.r c.file).1
  let r2 := (test w r1 c.path).1
  let r3 := (generate w r2 c.path).1
  { s with r := { r3 with calls := r3.calls ++ [Call.routines s.channel] } }

/-- Outcome of handling one walk entry or one event: the session afterwards,
the error the callback returns, and the classified change acted upon, if the
body of the acceptance branch ran. -/
structure Step where
  s : Session
  ret : Option GoString := none
  change : Option Classified := none
deriving DecidableEq, Repr

/-- Assignment `p.LastChangedOn = t` (lines 72 and 163). -/
def Session.mark (s : Session) (t : Nat) : Session :=
  { s with r := { s.r with p := { s.r.p with LastChangedOn := t } } }

/-- The call `p.print("log", out, msg, "")` of lines 75 and 152. -/
def Session.log (s : Session) (out : BufferOut) : Session :=
  { s with r := { s.r with p := print s.r.p "log".toList out } }

/-- The closure `walk` of `watchByPolling` (lines 53-89). `none` is a panic. -/
def walk (w : World) (watcher : pollWatcher) (s : Session) (changed : GoString)
    (info : FileInfo) (err : Option GoString) : Option Step :=
  if err ≠ none then some { s := s, ret := err }
  else if ! watcher.isWatching changed then some { s := s }
  else if ! After (Truncate info.ModTime Second) s.r.p.LastChangedOn then some { s := s }
  else
    match classify changed with
    | none => none
    | some c =>
      if qualifies c s.r.p.Watcher.Exts then
        let s1 := s.mark (Truncate (w.now 72) Second)
        match sliceFrom c.ext 1 with
        | none => none
        | some e1 =>
          let out : BufferOut :=
            { Time := w.now 74, Text := w.ToUpper e1 ++ " changed ".toList ++ c.file }
          match (s1.log out).restart with
          | none => none
          | some s3 => some { s := s3.react w c, change := some c }
      else some { s := s }

/-- An `fsnotify.Event`: the path and the operation bits. -/
structure Event where
  Name : GoString
  Op : Nat
deriving DecidableEq, Repr

/-- The bit `fsnotify.Chmod` (`1 << 4`). -/
def Chmod : Nat := 16

/-- The case `event := <-watcher.Events` of `watching` (lines 134-166). `none`
is a panic. -/
def onEvent (w : World) (s : Session) (event : Event) : Option Step :=
  if After (Truncate (w.now 135) Second) s.r.p.LastChangedOn then
    if event.Op &&& Chmod = Chmod then some { s := s }
    else if (w.fs event.Name).isSome then
      match classifyEvent event.Name with
      | none => none
      | some c =>
        if c.stem ≠ [] && inArray c.ext s.r.p.Watcher.Exts then
          match sliceFrom c.ext 1 with
          | none => none
          | some e1 =>
            let out : BufferOut :=
              { Time := w.now 151, Text := w.ToUpper e1 ++ " changed ".toList ++ c.file }
            match (s.log out).restart with
            | none => none
            | some s2 =>
              some { s := (s2.react w c).mark (Truncate (w.now 163) Second), change := some c }
        else some { s := s }
    else some { s := s }
  else some { s := s }

/-! ## Start-up of the two watch modes -/

/-- Go method call `err.Error()`; on a nil error it is a nil dereference, here
`none`. -/
def Error (err : Option GoString) : Option GoString := err

/-- How the start-up of a watch function ends: `log.Fatalln` with a message,
a run-time panic, or the loop being entered with a session. -/
inductive Start where
  | fatal (msg : GoString)
  | panic
  | watching (s : Session) (watcher : WatcherImpl)
deriving DecidableEq, Repr

/-- Lines 129-130 and 49-50: the first `go p.routines(channel, &wr)` and the
first watermark; `line` is the source line of the `time.Now()` read. -/
def enterLoop (w : World) (r : Run) (line : Nat) : Session :=
  { r := { p := { r.p with LastChangedOn := Truncate (w.now line) Second },
           calls := r.calls ++ [Call.routines 0] } }

/-- `watchByPolling` up to its loop (lines 36-50). -/
def watchByPollingStart (w : World) (p : Project) : Start :=
  let r0 : Run := { p := { p with path := p.Path } }
  let r1 := cmd w r0
  let sc := walks w r1 (.poll {})
  let err := sc.2
  if err ≠ none then
    match Error err with
    | none => .panic
    | some m => .fatal m
  else .watching (enterLoop w sc.1.r 50) sc.1.watcher

/-- `watching` up to its loop (lines 111-130). The variable `err` is the one
bound by `fsnotify.NewWatcher()` at line 116; line 125 tests the result of
`p.walks` without binding it, and line 126 reads `err` again. -/
def watchingStart (w : World) (p : Project) : Start :=
  let r0 : Run := { p := { p with path := p.Path } }
  let err := w.NewWatcher
  if err ≠ none then
    match Error err with
    | none => .panic
    | some m => .fatal m
  else
    let r1 := cmd w r0
    let sc := walks w r1 (.fsnotify [])
    if sc.2 ≠ none then
      match Error err with
      | none => .panic
      | some m => .fatal m
    else .watching (enterLoop w sc.1.r 130) sc.1.watcher

/-- Handling a sequence of walk entries in poll mode. -/
def runWalks (watcher : pollWatcher) : Session → List (World × GoString × FileInfo) → Option Session
  | s, [] => some s
  | s, (w, changed, info) :: rest =>
    match walk w watcher s changed info none with
    | none => none
    | some st => runWalks watcher st.s rest

/-- The launches `go p.routines(channel, &wr)` among the calls: the channel
handed to each, in order. -/
def launched (calls : List Call) : List Nat :=
  calls.filterMap (fun c => match c with | .routines ch => some ch | _ => none)

/-- The segments of a path: the pieces between its separators. -/
def segments : GoString → List GoString
  | [] => [[]]
  | c :: cs =>
    if c = '/' then [] :: segments cs
    else
      match segments cs with
      | [] => [[c]]
      | seg :: rest => (c :: seg) :: rest

/-- The spec's wording for a hidden entry: some path segment starts with a dot. -/
def hiddenSegment (path : GoString) : Bool :=
  (segments path).any (fun seg => seg.head? == some '.')

/-- The spec's rule for registering a visited entry: a directory that is not
hidden and has no extension, or a file whose extension is watched. -/
def specRegisters (exts : List GoString) (path : GoString) (info : FileInfo) : Bool :=
  (info.IsDir && ! hiddenSegment path && (Ext path == []))
    || (! info.IsDir && exts.contains (Ext path))

/-- Whether the watcher holds `path`: in the polling set, or among the paths
fsnotify accepted. -/
def WatcherImpl.has : WatcherImpl → GoString → Bool
  | .poll pw, path => pw.isWatching path
  | .fsnotify added, path => added.contains path

/-! ## Both modes side by side -/

/-- One file-system mutation as each mode meets it: the readings of the outside
world while it is handled, the path, the `os.FileInfo` the poll walk passes,
and the operation bits the event carries. -/
structure Mutation where
  w : World
  changed : GoString
  info : FileInfo
  op : Nat

/-- The session after the poll callback handled `m`. -/
def pollNext (watcher : pollWatcher) (s : Session) (m : Mutation) : Session :=
  match walk m.w watcher s m.changed m.info none with
  | some st => st.s
  | none => s

/-- The session after the event handler handled `m`. -/
def eventNext (s : Session) (m : Mutation) : Session :=
  match onEvent m.w s { Name := m.changed, Op := m.op } with
  | some st => st.s
  | none => s

/-- The classified changes the poll callback acts upon, in order. -/
def pollChanges (watcher : pollWatcher) : Session → List Mutation → List Classified
  | _, [] => []
  | s, m :: ms =>
    match walk m.w watcher s m.changed m.info none with
    | some st => st.change.toList ++ pollChanges watcher st.s ms
    | none => []

/-- The classified changes the event handler acts upon, in order. -/
def eventChanges : Session → List Mutation → List Classified
  | _, [] => []
  | s, m :: ms =>
    match onEvent m.w s { Name := m.changed, Op := m.op } with
    | some st => st.change.toList ++ eventChanges st.s ms
    | none => []

/-- The checks of the poll callback ahead of classification (lines 56-58): the
path is in the polling set and its modification second lies after the
watermark. -/
def pollPass (watcher : pollWatcher) (sP : Session) (m : Mutation) : Bool :=
  watcher.isWatching m.changed
    && decide (sP.r.p.LastChangedOn < Truncate m.info.ModTime Second)

/-- The checks of the event handler ahead of classification (lines 135-139): the
clock second lies after the watermark, the operation does not carry the chmod
bit, and the path can be stat'ed. -/
def eventPass (sE : Session) (m : Mutation) : Bool :=
  decide (sE.r.p.LastChangedOn < Truncate (m.w.now 135) Second)
    && decide (m.op &&& Chmod ≠ Chmod)
    && (m.w.fs m.changed).isSome

/-- What the poll callback decides once its checks are passed (lines 62-71):
the classified path when it qualifies, nothing otherwise. -/
def pollDecision (exts : List GoString) (changed : GoString) : Option Classified :=
  (classify changed).bind (fun c => if qualifies c exts then some c else none)

/-- What the event handler decides once its checks are passed (lines 140-149):
the classified path when it qualifies, nothing otherwise. -/
def eventDecision (exts : List GoString) (name : GoString) : Option Classified :=
  (classifyEvent name).bind (fun c => if c.stem ≠ [] && inArray c.ext exts then some c else none)

/-- Both modes let `m` through their checks ahead of classification. -/
def passes (watcher : pollWatcher) (sP sE : Session) (m : Mutation) : Bool :=
  pollPass watcher sP m && eventPass sE m

/-- Every mutation of the list is let through by both modes when it is handled. -/
def allPass (watcher : pollWatcher) : Session → Session → List Mutation → Bool
  | _, _, [] => true
  | sP, sE, m :: ms =>
    passes watcher sP sE m && allPass watcher (pollNext watcher sP m) (eventNext sE m) ms

/-! ## Relations used in the proofs -/

/-- A tool step leaves everything but the buffer and the calls alone, and
launches no `routines`. -/
def ToolFrame (r r1 : Run) : Prop :=
  (∃ b, r1.p = { r.p with Buffer := b }) ∧ launched r1.calls = launched r.calls

/-- The part of a session the restart bookkeeping depends on. -/
def Core (s : Session) : Watcher × Bool × List Nat × Nat × Nat × List Nat :=
  (s.r.p.Watcher, s.r.p.Run, launched s.r.calls, s.channel, s.made, s.closed)

/-- How a session `s1` sits after a change was accepted in session `s`: one
more `routines` launch, and, when the worker is enabled, the live channel closed
(it was open) and replaced by a fresh one. -/
def Restarted (s s1 : Session) : Prop :=
  s1.r.p.Watcher = s.r.p.Watcher ∧ s1.r.p.Run = s.r.p.Run ∧
  launched s1.r.calls = launched s.r.calls ++ [s1.channel] ∧
  (if s.r.p.Run = true then
      s.channel ∉ s.closed ∧ s1.closed = s.channel :: s.closed ∧ s1.channel = s.made ∧
        s1.made = s.made + 1
    else s1.closed = s.closed ∧ s1.channel = s.channel ∧ s1.made = s.made)

/-- The live channel is open and every closed channel is an earlier one. -/
def TokInv (s : Session) : Prop :=
  s.channel < s.made ∧ ∀ c ∈ s.closed, c < s.made ∧ c ≠ s.channel

/-! ## Sample inputs -/

/-- Sample `strings.ToUpper`, on ASCII letters. -/
def upper (s : GoString) : GoString := s.map Char.toUpper

/-- A world whose clock reads `clock`, whose file system is `fs`, and whose
tools all succeed silently. -/
def calmWorld (clock : Nat → Nat) (fs : GoString → Option Node) : World :=
  { now := clock, ToUpper := upper, goTools := fun _ _ => ([], none), goInstall := ([], none),
    goBuild := ([], none), afterBefore := fun _ => ([], []), since := fun _ => "0.000".toList,
    fs := fs, Getwd := "/w".toList, Wdir := "w".toList, NewWatcher := none,
    fsAdd := fun _ => none, runner := true }

/-- A project watching `.go` files under `/w/src`, with the worker enabled. -/
def demoProject : Project :=
  { Name := "demo".toList, Path := "/w".toList, Run := true,
    Watcher := { Paths := ["src".toList], Exts := [".go".toList] },
    base := "/w".toList, path := "/w".toList }

/-- A session of `demoProject` whose watermark is `mark`. -/
def demoSession (mark : Nat) : Session :=
  { r := { p := { demoProject with LastChangedOn := mark } } }

/-- A file system holding the single file `/w/src/main.go`, last modified at `mt`. -/
def demoFs (mt : Nat) : GoString → Option Node :=
  fun path => if path = "/w/src/main.go".toList then some (.file "main.go".toList mt) else none

/-- The polling set after `/w/src/main.go` was added. -/
def demoPoll : pollWatcher := (pollWatcher.Add {} "/w/src/main.go".toList).1

/-- A write event (`fsnotify.Write` is 2) on `/w/src/main.go`. -/
def demoEvent : Event := { Name := "/w/src/main.go".toList, Op := 2 }

/-- A create event (`fsnotify.Create` is 1) on `/w/src/main.go`, as raised when
an existing file is moved into the directory: it keeps its modification time. -/
def demoCreate : Event := { Name := "/w/src/main.go".toList, Op := 1 }

/-- Two mutations of `/w/src/main.go`, two seconds apart. -/
def demoMutations : List Mutation :=
  [ { w := calmWorld (fun _ => 20000000000) (demoFs 19000000000),
      changed := "/w/src/main.go".toList, info := { IsDir := false, ModTime := 19000000000 }, op := 2 },
    { w := calmWorld (fun _ => 22000000000) (demoFs 21000000000),
      changed := "/w/src/main.go".toList, info := { IsDir := false, ModTime := 21000000000 }, op := 2 } ]

/-- A world in which the build tool fails. -/
def brokenBuild : World :=
  { calmWorld (fun _ => 0) (fun _ => none) with
    goBuild := ("undefined: x".toList, some "exit status 2".toList) }

/-- A project with the build step and the worker enabled. -/
def buildProject : Project := { demoProject with Build := true }

/-- A world in which the install tool and the build tool both fail. -/
def brokenBoth : World :=
  { calmWorld (fun _ => 0) (fun _ => none) with
    goInstall := ("cannot find package".toList, some "exit status 1".toList),
    goBuild := ("undefined: x".toList, some "exit status 2".toList) }

/-- A project with the install step, the build step and the worker enabled. -/
def installProject : Project := { demoProject with Bin := true, Build := true }

/-- A write event that also carries the chmod bit (`Write | Chmod` is 18). -/
def demoWriteChmod : Event := { Name := "/w/src/main.go".toList, Op := 18 }

/-- A world with an empty file system. -/
def emptyWorld : World := calmWorld (fun _ => 0) (fun _ => none)

/-! # Theorems -/

/-! ## Facts about the library functions -/

/-- The loop of `Ext` returns nothing or the suffix at a dot it found. -/
theorem extLoop_spec (path : GoString) : ∀ n, n ≤ path.length →
    extLoop path n = [] ∨ ∃ k, k < n ∧ extLoop path n = path.drop k ∧ path.get? k = some '.' := by
  intro n
  induction n with
  | zero => intro _; left; rfl
  | succ i ih =>
    intro h
    have hi : i < path.length := h
    unfold extLoop
    rw [List.get?_eq_get hi]
    simp only
    split
    · left; rfl
    · split
      · rename_i hdot
        right
        refine ⟨i, Nat.lt_succ_self i, rfl, ?_⟩
        rw [List.get?_eq_get hi]
        simp at hdot
        simp [hdot]
      · rcases ih (Nat.le_of_lt hi) with h0 | ⟨k, hk, he, hg⟩
        · left; exact h0
        · right; exact ⟨k, Nat.lt_succ_of_lt hk, he, hg⟩

/-- `Ext path` is empty or the suffix of `path` at one of its dots. -/
theorem Ext_spec (path : GoString) :
    Ext path = [] ∨ ∃ k, k < path.length ∧ Ext path = path.drop k ∧ path.get? k = some '.' :=
  extLoop_spec path path.length (Nat.le_refl _)

/-- `Ext path` is a suffix of `path`. -/
theorem Ext_suffix (path : GoString) : Ext path <:+ path := by
  rcases Ext_spec path with h | ⟨k, _, h, _⟩
  · rw [h]; exact List.nil_suffix
  · rw [h]; exact List.drop_suffix k path

/-- A non-empty extension begins with a dot. -/
theorem Ext_head (path : GoString) (h : Ext path ≠ []) : ∃ t, Ext path = '.' :: t := by
  rcases Ext_spec path with h0 | ⟨k, hk, he, hg⟩
  · exact absurd h0 h
  · rw [he]
    rw [List.get?_eq_get hk] at hg
    have := List.drop_eq_getElem_cons hk
    refine ⟨path.drop (k+1), ?_⟩
    rw [this]
    simp at hg
    simp [hg]

/-- The scan of `Index` returns `-1` when no offset matches, else the least matching offset. -/
theorem indexFrom_spec (sub : GoString) : ∀ (s : GoString) (i : Nat),
    (indexFrom sub s i = -1 ∧ ∀ k, k ≤ s.length → ¬ sub <+: s.drop k) ∨
    (∃ k, k ≤ s.length ∧ indexFrom sub s i = ((i + k : Nat) : Int) ∧ sub <+: s.drop k ∧
      ∀ j, j < k → ¬ sub <+: s.drop j) := by
  intro s
  induction s with
  | nil =>
    intro i
    unfold indexFrom
    by_cases h : sub.isPrefixOf [] = true
    · right
      refine ⟨0, Nat.le_refl _, by simp [h], ?_, ?_⟩
      · simpa using List.isPrefixOf_iff_prefix.mp h
      · intro j hj; exact absurd hj (Nat.not_lt_zero j)
    · left
      refine ⟨by simp [h], ?_⟩
      intro k _ hp
      apply h
      have : sub <+: ([] : GoString) := by simpa using hp
      exact List.isPrefixOf_iff_prefix.mpr this
  | cons c cs ih =>
    intro i
    unfold indexFrom
    by_cases h : sub.isPrefixOf (c :: cs) = true
    · right
      refine ⟨0, Nat.zero_le _, by simp [h], ?_, ?_⟩
      · simpa using List.isPrefixOf_iff_prefix.mp h
      · intro j hj; exact absurd hj (Nat.not_lt_zero j)
    · have hnp : ¬ sub <+: c :: cs := fun hp => h (List.isPrefixOf_iff_prefix.mpr hp)
      rcases ih (i + 1) with ⟨hm, hall⟩ | ⟨k, hk, he, hp, hmin⟩
      · left
        refine ⟨by simp [h, hm], ?_⟩
        intro k hk
        cases k with
        | zero => simpa using hnp
        | succ k => simpa using hall k (by simpa using hk)
      · right
        refine ⟨k + 1, by simpa using hk, ?_, by simpa using hp, ?_⟩
        · simp [h, he]; omega
        · intro j hj
          cases j with
          | zero => simpa using hnp
          | succ j => simpa using hmin j (by omega)

/-- `Index` finds a substring that is there, at its first occurrence. -/
theorem Index_nonneg_of_infix (s sub : GoString) (h : sub <:+: s) :
    ∃ k : Nat, Index s sub = (k : Int) ∧ k + sub.length ≤ s.length ∧ sub <+: s.drop k ∧
      ∀ j, j < k → ¬ sub <+: s.drop j := by
  rcases indexFrom_spec sub s 0 with ⟨_, hall⟩ | ⟨k, hk, he, hp, hmin⟩
  · exfalso
    obtain ⟨a, b, hab⟩ := h
    apply hall a.length
    · rw [← hab]; simp
    · rw [← hab]; simp
  · refine ⟨k, by simpa [Index] using he, ?_, hp, hmin⟩
    have := hp.length_le
    simp at this
    omega

/-- `Index s sub` is `-1` and nothing matches, or it is the first matching offset. -/
theorem Index_cases (s sub : GoString) :
    (Index s sub = -1 ∧ ∀ k, k ≤ s.length → ¬ sub <+: s.drop k) ∨
    (∃ k : Nat, k ≤ s.length ∧ Index s sub = (k : Int) ∧ sub <+: s.drop k ∧
      ∀ j, j < k → ¬ sub <+: s.drop j) := by
  rcases indexFrom_spec sub s 0 with h | ⟨k, hk, he, hp, hmin⟩
  · left; exact h
  · right; exact ⟨k, hk, by simpa [Index] using he, hp, hmin⟩

/-- The loop of `Ext` never returns a separator. -/
theorem extLoop_no_separator (path : GoString) : ∀ n, n ≤ path.length →
    (∀ c ∈ path.drop n, IsPathSeparator c = false) →
    ∀ c ∈ extLoop path n, IsPathSeparator c = false := by
  intro n
  induction n with
  | zero => intro _ _ c hc; simp [extLoop] at hc
  | succ i ih =>
    intro h hrest c hc
    have hi : i < path.length := h
    have hd : path.drop i = path[i] :: path.drop (i + 1) := List.drop_eq_getElem_cons hi
    unfold extLoop at hc
    rw [List.get?_eq_get hi] at hc
    simp only at hc
    split at hc
    · cases hc
    · rename_i hsep
      have hall : ∀ c ∈ path.drop i, IsPathSeparator c = false := by
        intro d hdm
        rw [hd] at hdm
        rcases List.mem_cons.mp hdm with rfl | hdm
        · simpa using hsep
        · exact hrest d hdm
      split at hc
      · exact hall c hc
      · exact ih (Nat.le_of_lt hi) hall c hc

/-- An extension holds no path separator. -/
theorem Ext_no_separator (path : GoString) : ∀ c ∈ Ext path, IsPathSeparator c = false :=
  extLoop_no_separator path path.length (Nat.le_refl _) (by simp)

/-- The cut point of `Dir` lies within the text scanned. -/
theorem dirLoop_le (path : GoString) : ∀ n, dirLoop path n ≤ n := by
  intro n
  induction n with
  | zero => simp [dirLoop]
  | succ i ih =>
    unfold dirLoop
    split
    · exact Nat.le_refl _
    · exact Nat.le_succ_of_le ih

/-- The loop of `Dir` reads only the text below its start index. -/
theorem dirLoop_append_left (a b : GoString) : ∀ n, n ≤ a.length →
    dirLoop (a ++ b) n = dirLoop a n := by
  intro n
  induction n with
  | zero => intro _; rfl
  | succ i ih =>
    intro h
    have hi : i < a.length := h
    unfold dirLoop
    have : (a ++ b).getD i ' ' = a.getD i ' ' := by
      simp [List.getD, List.getElem?_append_left hi]
    rw [this, ih (Nat.le_of_lt hi)]

/-- Text without a separator at the end is skipped by the loop of `Dir`. -/
theorem dirLoop_append_right (a b : GoString) (hb : ∀ c ∈ b, IsPathSeparator c = false) :
    ∀ k, k ≤ b.length → dirLoop (a ++ b) (a.length + k) = dirLoop a a.length := by
  intro k
  induction k with
  | zero => intro _; exact dirLoop_append_left a b a.length (Nat.le_refl _)
  | succ j ih =>
    intro h
    have hj : j < b.length := h
    rw [show dirLoop (a ++ b) (a.length + (j + 1)) =
        (if IsPathSeparator ((a ++ b).getD (a.length + j) ' ') then a.length + j + 1
         else dirLoop (a ++ b) (a.length + j)) from rfl]
    have hget : (a ++ b).getD (a.length + j) ' ' = b[j] := by
      simp [List.getD, List.getElem?_append_right, List.getElem?_eq_getElem hj]
    rw [hget, hb _ (List.getElem_mem hj)]
    simp only [Bool.false_eq_true, if_false]
    exact ih (Nat.le_of_lt hj)

/-- Appending text without a separator does not change the directory. -/
theorem Dir_append (a b : GoString) (hb : ∀ c ∈ b, IsPathSeparator c = false) :
    Dir (a ++ b) = Dir a := by
  unfold Dir
  rw [List.length_append, dirLoop_append_right a b hb b.length (Nat.le_refl _)]
  rw [List.take_append_of_le_length (dirLoop_le a a.length)]

/-- A path element that starts at a non-separator is not empty. -/
theorem element_nonempty (path : GoString) (r : Nat) (hr : r < path.length)
    (hs : IsPathSeparator (path.getD r '/') = false) :
    1 ≤ ((path.drop r).takeWhile (fun c => ! IsPathSeparator c)).length := by
  have hd : path.drop r = path.getD r '/' :: path.drop (r + 1) := by
    rw [List.drop_eq_getElem_cons hr]
    congr 1
    simp [List.getD, List.getElem?_eq_getElem hr]
  rw [hd, List.takeWhile_cons]
  simp only [hs, Bool.not_false, if_true, List.length_cons]
  omega

/-- Once the fuel exceeds what is left to read, more fuel changes nothing. -/
theorem cleanLoop_fuel (path : GoString) (rooted : Bool) : ∀ (fuel r : Nat) (out : GoString)
    (dotdot : Nat), path.length < r + fuel →
    cleanLoop path rooted (fuel + 1) r out dotdot = cleanLoop path rooted fuel r out dotdot := by
  intro fuel
  induction fuel with
  | zero =>
    intro r out dotdot h
    have : ¬ r < path.length := by omega
    simp [cleanLoop, this]
  | succ k ih =>
    intro r out dotdot h
    rw [cleanLoop]
    conv => rhs; rw [cleanLoop]
    dsimp only
    by_cases hr : r < path.length
    · by_cases h1 : IsPathSeparator (path.getD r '/') = true
      · simp only [hr, h1, if_true]
        exact ih _ _ _ (by omega)
      · have hne := element_nonempty path r hr (by simpa using h1)
        simp only [hr, if_true]
        split_ifs <;> exact ih _ _ _ (by omega)
    · simp [hr]

/-- The fuel `Clean` passes to its loop is enough: any larger amount gives the same path. -/
theorem cleanLoop_enough (path : GoString) (rooted : Bool) (extra r : Nat) (out : GoString)
    (dotdot : Nat) :
    cleanLoop path rooted (path.length + 1 + extra) r out dotdot =
      cleanLoop path rooted (path.length + 1) r out dotdot := by
  induction extra with
  | zero => rfl
  | succ e ih =>
    rw [← ih]
    exact cleanLoop_fuel path rooted (path.length + 1 + e) r out dotdot (by omega)

/-- `Contains` holds exactly when the substring starts at some offset. -/
theorem Contains_iff (s sub : GoString) :
    Contains s sub = true ↔ ∃ k, k ≤ s.length ∧ sub <+: s.drop k := by
  unfold Contains
  rw [decide_eq_true_iff]
  rcases Index_cases s sub with ⟨hm, hall⟩ | ⟨k, hk, he, hp, _⟩
  · rw [hm]
    constructor
    · intro h; omega
    · rintro ⟨k, hk, hp⟩; exact absurd hp (hall k hk)
  · rw [he]
    constructor
    · intro _; exact ⟨k, hk, hp⟩
    · intro _; omega

/-- `HasPrefix path "."` tests the first character. -/
theorem HasPrefix_dot (path : GoString) :
    HasPrefix path ".".toList = true ↔ path.head? = some '.' := by
  unfold HasPrefix
  cases path with
  | nil => simp [List.isPrefixOf]
  | cons c cs =>
    show (['.'].isPrefixOf (c :: cs)) = true ↔ _
    simp [List.isPrefixOf]
    exact eq_comm

/-- `After` is the strict order on times. -/
theorem After_iff (t u : Nat) : After t u = true ↔ u < t := by simp [After]

/-! ## Classification -/

/-- Classification never panics: the index of the extension is in range, and a non-empty stem comes with an extension that begins with a dot. -/
theorem classify_total (changed : GoString) :
    ∃ c, classify changed = some c ∧ 0 ≤ c.i ∧ c.i ≤ changed.length ∧
      c.i = Index changed (Ext changed) ∧
      (c.stem ≠ [] → ∃ t, c.ext = '.' :: t) := by
  -- the index of the extension in the path
  obtain ⟨k, hk, hlen, hpre, hmin⟩ := Index_nonneg_of_infix changed (Ext changed) (Ext_suffix changed).isInfix
  have hk' : k ≤ changed.length := by omega
  have hst : sliceTo changed (Index changed (Ext changed)) = some (changed.take k) := by
    simp [sliceTo, hk, hk']
  have hstem : changed.take k ≠ [] → Ext changed ≠ [] := by
    intro hne he
    apply hne
    have : k = 0 := by
      by_contra hk0
      exact hmin 0 (Nat.pos_of_ne_zero hk0) (by rw [he]; exact List.nil_prefix)
    simp [this]
  -- the canonical extension
  rcases Index_cases (Ext changed) ['_'] with ⟨hm, _⟩ | ⟨j, hj, hje, hjp, _⟩
  · refine ⟨{ ext := Ext changed, i := Index changed (Ext changed), stem := changed.take k,
               file := changed.take k ++ Ext changed, path := Dir (changed.take k) },
             by simp [classify, canonicalExt, hm, hst], by simp [hk], by simp [hk, hk'], rfl, ?_⟩
    intro hne
    exact Ext_head changed (hstem hne)
  · have hce : canonicalExt changed = some ((Ext changed).take j) := by
      simp only [canonicalExt, hje]
      have : ¬ ((j : Int) = -1) := by omega
      simp [this, sliceTo, hj]
    refine ⟨{ ext := (Ext changed).take j, i := Index changed (Ext changed), stem := changed.take k,
               file := changed.take k ++ (Ext changed).take j, path := Dir (changed.take k) },
             by simp [classify, hce, hst], by simp [hk], by simp [hk, hk'], rfl, ?_⟩
    intro hne
    obtain ⟨t, ht⟩ := Ext_head changed (hstem hne)
    have hj0 : j ≠ 0 := by
      intro h0
      rw [h0, ht] at hjp
      simp at hjp
    obtain ⟨j', rfl⟩ := Nat.exists_eq_succ_of_ne_zero hj0
    exact ⟨t.take j', by simp [ht]⟩

/-- What classification computes, spelled out: the stem is the text before the
first occurrence of the raw extension, the canonical extension is a sub-prefix
of the raw one. -/
theorem classify_shape (changed : GoString) :
    ∃ (k j : Nat) (c : Classified), classify changed = some c ∧
      Index changed (Ext changed) = (k : Int) ∧ k + (Ext changed).length ≤ changed.length ∧
      c.stem = changed.take k ∧ c.ext = (Ext changed).take j ∧
      c.file = changed.take k ++ (Ext changed).take j ∧ c.path = Dir (changed.take k) := by
  obtain ⟨k, hk, hlen, _, _⟩ :=
    Index_nonneg_of_infix changed (Ext changed) (Ext_suffix changed).isInfix
  have hk1 : k ≤ changed.length := by omega
  have hst : sliceTo changed (Index changed (Ext changed)) = some (changed.take k) := by
    simp [sliceTo, hk, hk1]
  rcases Index_cases (Ext changed) ['_'] with ⟨hm, _⟩ | ⟨j, hj, hje, _, _⟩
  · refine ⟨k, (Ext changed).length,
      { ext := Ext changed, i := Index changed (Ext changed), stem := changed.take k,
        file := changed.take k ++ Ext changed, path := Dir (changed.take k) },
      ?_, hk, hlen, rfl, ?_, ?_, rfl⟩
    · simp [classify, canonicalExt, hm, hst]
    · simp
    · simp
  · have hce : canonicalExt changed = some ((Ext changed).take j) := by
      simp only [canonicalExt, hje]
      have : ¬ ((j : Int) = -1) := by omega
      simp [this, sliceTo, hj]
    exact ⟨k, j,
      { ext := (Ext changed).take j, i := Index changed (Ext changed), stem := changed.take k,
        file := changed.take k ++ (Ext changed).take j, path := Dir (changed.take k) },
      by simp [classify, hce, hst], hk, hlen, rfl, rfl, rfl, rfl⟩

/-- The directory handed to `test` and `generate` is the directory of the
canonical file. -/
theorem classify_directory (changed : GoString) (c : Classified)
    (h : classify changed = some c) : c.path = Dir c.file := by
  obtain ⟨k, j, c1, hc, _, _, _, _, hfile, hpath⟩ := classify_shape changed
  rw [h] at hc
  cases hc
  rw [hfile, hpath, Dir_append]
  intro d hd
  exact Ext_no_separator changed d (List.mem_of_mem_take hd)

/-- Where the raw extension does not occur in the path before its own place at
the end, the canonical file is the path with the raw extension replaced by the
canonical one, and the directory is that of the changed path. -/
theorem classify_at_end (changed : GoString) (c : Classified)
    (h : classify changed = some c)
    (hend : Index changed (Ext changed) = ((changed.length - (Ext changed).length : Nat) : Int)) :
    c.file = changed.take (changed.length - (Ext changed).length) ++ c.ext ∧
    c.path = Dir changed := by
  obtain ⟨k, j, c1, hc, hk, hlen, _, hext, hfile, hpath⟩ := classify_shape changed
  rw [h] at hc
  cases hc
  have hkk : k = changed.length - (Ext changed).length := by
    rw [hk] at hend
    exact_mod_cast hend
  refine ⟨by rw [hfile, hext, hkk], ?_⟩
  rw [hpath]
  obtain ⟨t, ht⟩ := Ext_suffix changed
  have hlen2 : t.length = changed.length - (Ext changed).length := by
    have := congrArg List.length ht
    simp at this
    omega
  have htake : changed.take k = t := by
    rw [hkk, ← hlen2]
    conv => lhs; rw [← ht]
    simp
  rw [htake]
  conv => rhs; rw [← ht]
  exact (Dir_append t (Ext changed) (Ext_no_separator changed)).symm

/-- Claim C10. For every path and every set of watched extensions:
`strings.Index(path, filepath.Ext(path))` is not `-1`, the slice `path[:i]` is
in range, classification as a whole does not panic, and whenever the
acceptance condition holds the canonical extension is non-empty and begins
with a dot, so `ext[1:]` is in range. -/
theorem classification_in_range (changed : GoString) (exts : List GoString) :
    Index changed (Ext changed) ≠ -1 ∧
    (sliceTo changed (Index changed (Ext changed))).isSome = true ∧
    (classify changed).isSome = true ∧
    ∀ c, classify changed = some c → qualifies c exts = true →
      c.ext ≠ [] ∧ c.ext.head? = some '.' ∧ (sliceFrom c.ext 1).isSome = true := by
  obtain ⟨c, hc, h0, hlen, hi, hext⟩ := classify_total changed
  refine ⟨?_, ?_, by simp [hc], ?_⟩
  · rw [← hi]; omega
  · rw [← hi]; simp [sliceTo, h0, hlen]
  · intro c1 hc1 hq
    rw [hc] at hc1
    cases hc1
    have hstem : c.stem ≠ [] := by
      simp [qualifies] at hq
      exact hq.1
    obtain ⟨t, ht⟩ := hext hstem
    rw [ht]
    simp [sliceFrom]

/-- Witness for C10: `main.go` with watched extensions `""` and `.go`. -/
theorem classification_in_range_witness :
    qualifies { ext := ".go".toList, i := 4, stem := "main".toList, file := "main.go".toList,
                path := ".".toList } ["".toList, ".go".toList] = true ∧
    (sliceFrom ".go".toList 1).isSome = true :=
  ⟨by decide,
   ((classification_in_range "main.go".toList ["".toList, ".go".toList]).2.2.2
      { ext := ".go".toList, i := 4, stem := "main".toList, file := "main.go".toList,
        path := ".".toList } (by decide) (by decide)).2.2⟩

/-- Counterexample to C3 as stated: `foo_bar.go` keeps its stem; the canonical
file is `foo_bar.go`, not `foo.go`. -/
theorem underscore_in_stem_kept :
    (classify "foo_bar.go".toList).map (fun c => (c.ext, c.file))
      = some (".go".toList, "foo_bar.go".toList) ∧
    decide ((classify "foo_bar.go".toList).map (fun c => c.file) = some "foo.go".toList) = false := by
  decide

/-- Claim C3, as amended. Classification maps `foo_bar.go` to extension `.go` and
file `foo_bar.go` (an underscore in the stem is kept), maps `foo.go` to `.go`
and `foo.go`, and cuts only at an underscore inside the extension: `foo.go_bar`
gives `.go` and `foo.go`. -/
theorem classify_examples :
    (classify "foo_bar.go".toList).map (fun c => (c.ext, c.file))
      = some (".go".toList, "foo_bar.go".toList) ∧
    (classify "foo.go".toList).map (fun c => (c.ext, c.file))
      = some (".go".toList, "foo.go".toList) ∧
    (classify "foo.go_bar".toList).map (fun c => (c.ext, c.file))
      = some (".go".toList, "foo.go".toList) := by
  decide

/-- Claim C6, the code at the failing input. For `/home/dev/my.gopath/src/main.go`
the raw extension is `.go`, but `strings.Index` finds `.go` first inside
`my.gopath` (offset 12): the canonical file is `/home/dev/my.go` and the
directory handed to test and generate is `/home/dev`, not the directory
`/home/dev/my.gopath/src` that holds the changed file. -/
theorem extension_found_too_early :
    Ext "/home/dev/my.gopath/src/main.go".toList = ".go".toList ∧
    (classify "/home/dev/my.gopath/src/main.go".toList).map (fun c => (c.ext, c.i, c.file, c.path))
      = some (".go".toList, 12, "/home/dev/my.go".toList, "/home/dev".toList) ∧
    Dir "/home/dev/my.gopath/src/main.go".toList = "/home/dev/my.gopath/src".toList := by
  decide

/-! ## The output buffer and the tool steps -/

/-- `print` touches the buffer only. -/
theorem print_frame (p : Project) (t : GoString) (o : BufferOut) :
    ∃ b, print p t o = { p with Buffer := b } := by
  unfold print
  split
  · exact ⟨_, rfl⟩
  · split
    · exact ⟨_, rfl⟩
    · split
      · exact ⟨_, rfl⟩
      · exact ⟨p.Buffer, rfl⟩

/-- `print` with kind `error` appends to `StdErr`. -/
theorem print_error (p : Project) (o : BufferOut) :
    print p ['e', 'r', 'r', 'o', 'r'] o = { p with Buffer := { p.Buffer with StdErr := p.Buffer.StdErr ++ [o] } } := by
  unfold print
  rw [if_neg (by decide), if_neg (by decide), if_pos (by decide)]

/-- `print` with kind `log` appends to `StdLog`. -/
theorem print_log (p : Project) (o : BufferOut) :
    print p ['l', 'o', 'g'] o = { p with Buffer := { p.Buffer with StdLog := p.Buffer.StdLog ++ [o] } } := by
  unfold print
  rw [if_neg (by decide), if_pos (by decide)]

/-- Doing nothing is a tool step. -/
theorem ToolFrame.refl (r : Run) : ToolFrame r r := ⟨⟨r.p.Buffer, rfl⟩, rfl⟩

/-- Tool steps compose. -/
theorem ToolFrame.trans {a b c : Run} (h1 : ToolFrame a b) (h2 : ToolFrame b c) : ToolFrame a c := by
  obtain ⟨⟨b1, e1⟩, l1⟩ := h1
  obtain ⟨⟨b2, e2⟩, l2⟩ := h2
  refine ⟨⟨b2, ?_⟩, l2.trans l1⟩
  rw [e2, e1]

/-- A call other than `routines` is no launch. -/
theorem launched_append_tool (calls : List Call) (c : Call)
    (h : ∀ ch, c ≠ Call.routines ch) : launched (calls ++ [c]) = launched calls := by
  cases c <;> simp_all [launched, List.filterMap_append]

/-- A `routines` call is a launch with its channel. -/
theorem launched_append_routines (calls : List Call) (ch : Nat) :
    launched (calls ++ [Call.routines ch]) = launched calls ++ [ch] := by
  simp [launched, List.filterMap_append]

/-- `fmt` is a tool step. -/
theorem fmt_frame (w : World) (r : Run) (path : GoString) : ToolFrame r (fmt w r path).1 := by
  unfold fmt
  split
  · dsimp only
    generalize w.goTools r.p.base _ = res
    rcases res with ⟨st, _ | e⟩
    · exact ⟨⟨r.p.Buffer, rfl⟩, launched_append_tool _ _ (by intro ch; simp)⟩
    · obtain ⟨b, hb⟩ := print_frame r.p "error".toList
        { Time := w.now 239, Text := "there are some errors in".toList, Path := path,
          Typ := "Go Fmt".toList, Stream := st }
      exact ⟨⟨b, hb⟩, launched_append_tool _ _ (by intro ch; simp)⟩
  · exact ToolFrame.refl r

/-- `test` is a tool step. -/
theorem test_frame (w : World) (r : Run) (path : GoString) : ToolFrame r (test w r path).1 := by
  unfold test
  split
  · dsimp only
    generalize w.goTools path _ = res
    rcases res with ⟨st, _ | e⟩
    · exact ⟨⟨r.p.Buffer, rfl⟩, launched_append_tool _ _ (by intro ch; simp)⟩
    · obtain ⟨b, hb⟩ := print_frame r.p "error".toList
        { Time := w.now 265, Text := "there are some errors in".toList, Path := path,
          Typ := "Go Test".toList, Stream := st }
      exact ⟨⟨b, hb⟩, launched_append_tool _ _ (by intro ch; simp)⟩
  · exact ToolFrame.refl r

/-- `generate` is a tool step. -/
theorem generate_frame (w : World) (r : Run) (path : GoString) :
    ToolFrame r (generate w r path).1 := by
  unfold generate
  split
  · dsimp only
    generalize w.goTools path _ = res
    rcases res with ⟨st, _ | e⟩
    · exact ⟨⟨r.p.Buffer, rfl⟩, launched_append_tool _ _ (by intro ch; simp)⟩
    · obtain ⟨b, hb⟩ := print_frame r.p "error".toList
        { Time := w.now 252, Text := "there are some errors in".toList, Path := path,
          Typ := "Go Generate".toList, Stream := st }
      exact ⟨⟨b, hb⟩, launched_append_tool _ _ (by intro ch; simp)⟩
  · exact ToolFrame.refl r

/-- What `install` returns and leaves behind. -/
theorem install_spec (w : World) (r : Run) :
    (install w r).2 = (if r.p.Bin then w.goInstall.2 else none) ∧
    (install w r).1.calls = r.calls ++ (if r.p.Bin then [Call.goInstall] else []) ∧
    (install w r).1.p.Buffer.StdErr = r.p.Buffer.StdErr ++
      (match (if r.p.Bin then w.goInstall.2 else none) with
       | some e => [{ Time := w.now 183, Text := e, Typ := "Go Install".toList,
                      Stream := w.goInstall.1 }]
       | none => []) ∧
    (install w r).1.p.Build = r.p.Build := by
  unfold install
  by_cases hb : r.p.Bin = true
  · simp only [hb, if_true]
    cases h : w.goInstall.2 with
    | none => simp [print_log]
    | some e => simp [print_error]
  · simp [hb]

/-- What `build` returns and leaves behind. -/
theorem build_spec (w : World) (r : Run) :
    (build w r).2 = (if r.p.Build then w.goBuild.2 else none) ∧
    (build w r).1.calls = r.calls ++ (if r.p.Build then [Call.goBuild] else []) ∧
    (build w r).1.p.Buffer.StdErr = r.p.Buffer.StdErr ++
      (match (if r.p.Build then w.goBuild.2 else none) with
       | some e => [{ Time := w.now 222, Text := e, Typ := "Go Build".toList,
                      Stream := w.goBuild.1 }]
       | none => []) := by
  unfold build
  by_cases hb : r.p.Build = true
  · simp only [hb, if_true]
    cases h : w.goBuild.2 with
    | none => simp [print_log]
    | some e => simp [print_error]
  · simp [hb]

/-- Claim C4, as amended. For every project, every outcome of the install and
build tools and every channel: `routines` issues `go p.run` exactly when install
and build both returned nil, which is when no enabled tool failed. When build
is enabled and the build tool fails with `e`, `run` is not issued and exactly
one record of Type `Go Build`, carrying `e`, is appended to `StdErr`; it is the
only record appended, unless the install step is enabled and failed too, in
which case the one `Go Install` record of that step is appended before it. -/
theorem failing_step_blocks_run (w : World) (r : Run) (channel : Nat) :
    (∃ new, (routines w r channel).1.calls = r.calls ++ new ∧
      (∀ c ∈ new, c = Call.goInstall ∨ c = Call.goBuild ∨ c = Call.run channel) ∧
      (Call.run channel ∈ new ↔
        ((install w r).2 = none ∧ (build w (install w r).1).2 = none)) ∧
      (Call.run channel ∈ new ↔
        ((r.p.Bin = true → w.goInstall.2 = none) ∧ (r.p.Build = true → w.goBuild.2 = none))) ∧
      (r.p.Build = true → ∀ e, w.goBuild.2 = some e → Call.run channel ∉ new)) ∧
    (r.p.Build = true → ∀ e, w.goBuild.2 = some e →
      ∃ pre, (routines w r channel).1.p.Buffer.StdErr =
          r.p.Buffer.StdErr ++ pre ++
            [{ Time := w.now 222, Text := e, Typ := "Go Build".toList, Stream := w.goBuild.1 }] ∧
        (∀ o ∈ pre, o.Typ = "Go Install".toList) ∧ pre.length ≤ 1 ∧
        (pre = [] ↔ (r.p.Bin = true → w.goInstall.2 = none))) := by
  obtain ⟨i1, i2, i3, i4⟩ := install_spec w r
  obtain ⟨b1, b2, b3⟩ := build_spec w (install w r).1
  rw [i4] at b1 b2 b3
  have hcond : ((install w r).2 = none ∧ (build w (install w r).1).2 = none) ↔
      ((r.p.Bin = true → w.goInstall.2 = none) ∧ (r.p.Build = true → w.goBuild.2 = none)) := by
    rw [i1, b1]
    by_cases h1 : r.p.Bin = true <;> by_cases h2 : r.p.Build = true <;> simp [h1, h2]
  constructor
  · by_cases hok : (install w r).2 = none ∧ (build w (install w r).1).2 = none
    · refine ⟨(if r.p.Bin then [Call.goInstall] else []) ++
          (if r.p.Build then [Call.goBuild] else []) ++ [Call.run channel], ?_, ?_, ?_, ?_, ?_⟩
      · simp only [routines, hok, and_self, if_true]
        rw [b2, i2]
        simp
      · intro c hc
        by_cases h1 : r.p.Bin = true <;> by_cases h2 : r.p.Build = true <;>
          simp [h1, h2] at hc <;> tauto
      · simp [hok]
      · rw [← hcond]; simp [hok]
      · intro hb e he
        exfalso
        have := (hcond.mp hok).2 hb
        rw [he] at this
        cases this
    · refine ⟨(if r.p.Bin then [Call.goInstall] else []) ++
          (if r.p.Build then [Call.goBuild] else []), ?_, ?_, ?_, ?_, ?_⟩
      · simp only [routines, hok, if_false]
        rw [b2, i2]
        simp
      · intro c hc
        by_cases h1 : r.p.Bin = true <;> by_cases h2 : r.p.Build = true <;>
          simp [h1, h2] at hc <;> tauto
      · by_cases h1 : r.p.Bin = true <;> by_cases h2 : r.p.Build = true <;> simp [h1, h2, hok]
      · rw [← hcond]
        by_cases h1 : r.p.Bin = true <;> by_cases h2 : r.p.Build = true <;> simp [h1, h2, hok]
      · intro _ _ _
        by_cases h1 : r.p.Bin = true <;> by_cases h2 : r.p.Build = true <;> simp [h1, h2]
  · intro hb e he
    have hnot : ¬ ((install w r).2 = none ∧ (build w (install w r).1).2 = none) := by
      intro hok
      have := (hcond.mp hok).2 hb
      rw [he] at this
      cases this
    refine ⟨(match (if r.p.Bin then w.goInstall.2 else none) with
       | some e => [{ Time := w.now 183, Text := e, Typ := "Go Install".toList,
                      Stream := w.goInstall.1 }]
       | none => []), ?_, ?_, ?_, ?_⟩
    · simp only [routines, hnot, if_false]
      rw [b3, i3]
      simp [hb, he]
    · intro o ho
      by_cases h1 : r.p.Bin = true
      · cases h : w.goInstall.2 with
        | none => simp [h1, h] at ho
        | some ei =>
          simp [h1, h] at ho
          rw [ho]
          rfl
      · simp [h1] at ho
    · by_cases h1 : r.p.Bin = true
      · cases h : w.goInstall.2 <;> simp [h1, h]
      · simp [h1]
    · by_cases h1 : r.p.Bin = true
      · cases h : w.goInstall.2 <;> simp [h1, h]
      · simp [h1]

/-- Witness for C4: build enabled, the build tool fails; one `Go Build` record is
appended and nothing before it. -/
theorem failing_step_blocks_run_witness :
    ∃ pre, (routines brokenBuild { p := buildProject } 0).1.p.Buffer.StdErr =
        ([] : List BufferOut) ++ pre ++
          [{ Time := 0, Text := "exit status 2".toList, Typ := "Go Build".toList,
             Stream := "undefined: x".toList }] ∧
      (∀ o ∈ pre, o.Typ = "Go Install".toList) ∧ pre.length ≤ 1 ∧
      (pre = [] ↔ (buildProject.Bin = true → brokenBuild.goInstall.2 = none)) :=
  (failing_step_blocks_run brokenBuild { p := buildProject } 0).2 (by decide)
    "exit status 2".toList (by decide)

/-- Counterexample to C4 as stated: with install and build both enabled and both
failing, `run` is not issued and two error records are appended, `Go Install`
and `Go Build`, not exactly one. -/
theorem both_steps_fail_two_records :
    (routines brokenBoth { p := installProject } 0).1.calls = [Call.goInstall, Call.goBuild] ∧
    (routines brokenBoth { p := installProject } 0).1.p.Buffer.StdErr.map (fun o => o.Typ)
      = ["Go Install".toList, "Go Build".toList] ∧
    (routines brokenBoth { p := installProject } 0).1.p.Buffer.StdErr.length = 2 := by
  decide

/-! ## The two handlers -/

/-- What `react` does to a session: one more launch, the channel untouched. -/
theorem react_frame (w : World) (s : Session) (c : Classified) :
    (∃ b, (s.react w c).r.p = { s.r.p with Buffer := b }) ∧
    launched (s.react w c).r.calls = launched s.r.calls ++ [s.channel] ∧
    (s.react w c).channel = s.channel ∧ (s.react w c).made = s.made ∧
    (s.react w c).closed = s.closed := by
  have h := ((fmt_frame w s.r c.file).trans (test_frame w _ c.path)).trans
    (generate_frame w _ c.path)
  obtain ⟨⟨b, hb⟩, hl⟩ := h
  refine ⟨⟨b, ?_⟩, ?_, rfl, rfl, rfl⟩
  · simpa [Session.react] using hb
  · simp only [Session.react]
    rw [launched_append_routines, hl]

/-- What `log` does to a session: the buffer only. -/
theorem log_frame (s : Session) (o : BufferOut) :
    (∃ b, (s.log o).r.p = { s.r.p with Buffer := b }) ∧ (s.log o).r.calls = s.r.calls ∧
    (s.log o).channel = s.channel ∧ (s.log o).made = s.made ∧ (s.log o).closed = s.closed := by
  obtain ⟨b, hb⟩ := print_frame s.r.p "log".toList o
  exact ⟨⟨b, by simpa [Session.log] using hb⟩, rfl, rfl, rfl, rfl⟩

/-- The three ways `restart` can go: worker disabled, closing a closed channel, or closing and replacing the live one. -/
theorem restart_cases (s : Session) :
    (s.r.p.Run = false ∧ s.restart = some s) ∨
    (s.r.p.Run = true ∧ s.channel ∈ s.closed ∧ s.restart = none) ∨
    (s.r.p.Run = true ∧ s.channel ∉ s.closed ∧
      s.restart = some { s with closed := s.channel :: s.closed, channel := s.made,
                                made := s.made + 1 }) := by
  unfold Session.restart Session.close
  by_cases hr : s.r.p.Run = true
  · by_cases hc : s.channel ∈ s.closed
    · right; left; simp [hr, hc]
    · right; right; simp [hr, hc, Session.make]
  · left; simp [hr]

/-- The poll callback either leaves the session alone or runs the acceptance branch on the classified path. -/
theorem walk_cases (w : World) (watcher : pollWatcher) (s : Session) (changed : GoString)
    (info : FileInfo) (err : Option GoString) :
    walk w watcher s changed info err = some { s := s, ret := err } ∨
    (err = none ∧ watcher.isWatching changed = true ∧
      s.r.p.LastChangedOn < Truncate info.ModTime Second ∧
      ∃ c e1, classify changed = some c ∧ qualifies c s.r.p.Watcher.Exts = true ∧
        walk w watcher s changed info err =
          (((s.mark (Truncate (w.now 72) Second)).log
              { Time := w.now 74, Text := w.ToUpper e1 ++ " changed ".toList ++ c.file }).restart).map
            (fun s3 => { s := s3.react w c, change := some c })) := by
  unfold walk
  by_cases he : err = none
  · subst he
    by_cases hw : watcher.isWatching changed = true
    · by_cases ha : After (Truncate info.ModTime Second) s.r.p.LastChangedOn = true
      · obtain ⟨c, hc, _, _, _, hext⟩ := classify_total changed
        by_cases hq : qualifies c s.r.p.Watcher.Exts = true
        · right
          have hstem : c.stem ≠ [] := by
            simp [qualifies] at hq
            exact hq.1
          obtain ⟨t, ht⟩ := hext hstem
          have hsl : sliceFrom c.ext 1 = some t := by simp [sliceFrom, ht]
          refine ⟨rfl, hw, (After_iff _ _).mp ha, c, t, hc, hq, ?_⟩
          simp only [hw, ha, hc, hq, hsl]
          simp
          split <;> rename_i h <;> simp [h]
        · left
          simp [hw, ha, hc, hq]
      · left; simp [hw, ha]
    · left; simp [hw]
  · left; simp [he]

/-- The two transcriptions of the classification, lines 62-70 and lines
140-148, compute the same locals. -/
theorem classifyEvent_eq_classify (name : GoString) : classifyEvent name = classify name :=
  rfl

/-- The event handler, read through the poll callback's classification: lines
140-149 compute what lines 62-71 compute. -/
theorem onEvent_unfold (w : World) (s : Session) (event : Event) :
    onEvent w s event =
      if After (Truncate (w.now 135) Second) s.r.p.LastChangedOn then
        if event.Op &&& Chmod = Chmod then some { s := s }
        else if (w.fs event.Name).isSome then
          match classify event.Name with
          | none => none
          | some c =>
            if qualifies c s.r.p.Watcher.Exts then
              match sliceFrom c.ext 1 with
              | none => none
              | some e1 =>
                match (s.log { Time := w.now 151,
                               Text := w.ToUpper e1 ++ " changed ".toList ++ c.file }).restart with
                | none => none
                | some s2 =>
                  some { s := (s2.react w c).mark (Truncate (w.now 163) Second),
                         change := some c }
            else some { s := s }
        else some { s := s }
      else some { s := s } :=
  rfl

/-- The event handler either leaves the session alone or runs the acceptance branch on the classified path. -/
theorem onEvent_cases (w : World) (s : Session) (ev : Event) :
    onEvent w s ev = some { s := s } ∨
    (s.r.p.LastChangedOn < Truncate (w.now 135) Second ∧ ev.Op &&& Chmod ≠ Chmod ∧
      (w.fs ev.Name).isSome = true ∧
      ∃ c e1, classify ev.Name = some c ∧ qualifies c s.r.p.Watcher.Exts = true ∧
        onEvent w s ev =
          ((s.log { Time := w.now 151,
                    Text := w.ToUpper e1 ++ " changed ".toList ++ c.file }).restart).map
            (fun s2 => { s := (s2.react w c).mark (Truncate (w.now 163) Second),
                         change := some c })) := by
  rw [onEvent_unfold]
  by_cases ha : After (Truncate (w.now 135) Second) s.r.p.LastChangedOn = true
  · by_cases hop : ev.Op &&& Chmod = Chmod
    · left; simp [ha, hop]
    · by_cases hfs : (w.fs ev.Name).isSome = true
      · obtain ⟨c, hc, _, _, _, hext⟩ := classify_total ev.Name
        by_cases hq : qualifies c s.r.p.Watcher.Exts = true
        · right
          have hstem : c.stem ≠ [] := by
            simp [qualifies] at hq
            exact hq.1
          obtain ⟨t, ht⟩ := hext hstem
          have hsl : sliceFrom c.ext 1 = some t := by simp [sliceFrom, ht]
          refine ⟨(After_iff _ _).mp ha, hop, hfs, c, t, hc, hq, ?_⟩
          simp only [ha, hop, hfs, hc, hq, hsl]
          simp
          split <;> rename_i h <;> simp [h]
        · left
          simp [ha, hop, hfs, hc, hq]
      · left; simp [ha, hop, hfs]
  · left; simp [ha]

/-- `Restarted` only looks at the core of the two sessions. -/
theorem Restarted_congr {s s1 t t1 : Session} (h : Restarted s s1) (e : Core t = Core s)
    (e1 : Core t1 = Core s1) : Restarted t t1 := by
  simp only [Core, Prod.mk.injEq] at e e1
  obtain ⟨a1, a2, a3, a4, a5, a6⟩ := e
  obtain ⟨b1, b2, b3, b4, b5, b6⟩ := e1
  unfold Restarted at h ⊢
  rw [a1, a2, a3, a4, a5, a6, b1, b2, b3, b4, b5, b6]
  exact h

/-- Setting the watermark leaves the core alone. -/
theorem Core_mark (s : Session) (t : Nat) : Core (s.mark t) = Core s := rfl

/-- Logging leaves the core alone. -/
theorem Core_log (s : Session) (o : BufferOut) : Core (s.log o) = Core s := by
  obtain ⟨b, hb⟩ := print_frame s.r.p "log".toList o
  simp only [Core, Session.log, hb]

/-- `mark` sets the watermark. -/
theorem mark_LastChangedOn (s : Session) (t : Nat) : (s.mark t).r.p.LastChangedOn = t := rfl

/-- Logging leaves the watermark alone. -/
theorem log_LastChangedOn (s : Session) (o : BufferOut) :
    (s.log o).r.p.LastChangedOn = s.r.p.LastChangedOn := by
  obtain ⟨b, hb⟩ := print_frame s.r.p "log".toList o
  simp only [Session.log, hb]

/-- Closing and replacing the channel, then reacting: the session afterwards. -/
theorem restart_react (w : World) (s0 s3 : Session) (c : Classified)
    (h : s0.restart = some s3) :
    Restarted s0 (s3.react w c) ∧
      (s3.react w c).r.p.LastChangedOn = s0.r.p.LastChangedOn := by
  obtain ⟨⟨b, hb⟩, hl, hch, hmade, hclo⟩ := react_frame w s3 c
  rcases restart_cases s0 with ⟨hr, hre⟩ | ⟨hr, _, hre⟩ | ⟨hr, hnc, hre⟩
  · rw [hre] at h
    cases h
    refine ⟨⟨by rw [hb], by rw [hb], hl, ?_⟩, by rw [hb]⟩
    simp only [hr]
    exact ⟨hclo, hch, hmade⟩
  · rw [hre] at h
    cases h
  · rw [hre] at h
    cases h
    refine ⟨⟨by rw [hb], by rw [hb], hl, ?_⟩, by rw [hb]⟩
    simp only [hr]
    exact ⟨hnc, hclo, hch, hmade⟩

/-- An accepted poll step: where the session ends up and which checks it passed. -/
theorem walk_accept (w : World) (watcher : pollWatcher) (s : Session) (changed : GoString)
    (info : FileInfo) (err : Option GoString) (st : Step)
    (h : walk w watcher s changed info err = some st) (hc : st.change ≠ none) :
    Restarted s st.s ∧ st.s.r.p.LastChangedOn = Truncate (w.now 72) Second ∧
    s.r.p.LastChangedOn < Truncate info.ModTime Second ∧ err = none ∧
    watcher.isWatching changed = true ∧
    ∃ c, classify changed = some c ∧ qualifies c s.r.p.Watcher.Exts = true ∧ st.change = some c := by
  rcases walk_cases w watcher s changed info err with h0 | ⟨he, hw, hlt, c, e1, hcl, hq, heq⟩
  · rw [h0] at h
    cases h
    exact absurd rfl hc
  · rw [heq] at h
    obtain ⟨s3, hs3, hst⟩ := Option.map_eq_some'.mp h
    subst hst
    obtain ⟨hR, hL⟩ := restart_react w _ s3 c hs3
    refine ⟨Restarted_congr hR ?_ rfl, ?_, hlt, he, hw, c, hcl, hq, rfl⟩
    · rw [Core_log, Core_mark]
    · dsimp only
      rw [hL, log_LastChangedOn, mark_LastChangedOn]

/-- An accepted event: where the session ends up and which checks it passed. -/
theorem onEvent_accept (w : World) (s : Session) (ev : Event) (st : Step)
    (h : onEvent w s ev = some st) (hc : st.change ≠ none) :
    Restarted s st.s ∧ st.s.r.p.LastChangedOn = Truncate (w.now 163) Second ∧
    s.r.p.LastChangedOn < Truncate (w.now 135) Second ∧ ev.Op &&& Chmod ≠ Chmod ∧
    (w.fs ev.Name).isSome = true ∧
    ∃ c, classify ev.Name = some c ∧ qualifies c s.r.p.Watcher.Exts = true ∧ st.change = some c := by
  rcases onEvent_cases w s ev with h0 | ⟨hlt, hop, hfs, c, e1, hcl, hq, heq⟩
  · rw [h0] at h
    cases h
    exact absurd rfl hc
  · rw [heq] at h
    obtain ⟨s3, hs3, hst⟩ := Option.map_eq_some'.mp h
    subst hst
    obtain ⟨hR, _⟩ := restart_react w _ s3 c hs3
    refine ⟨Restarted_congr hR ?_ ?_, rfl, hlt, hop, hfs, c, hcl, hq, rfl⟩
    · rw [Core_log]
    · dsimp only
      rw [Core_mark]

/-- A poll step that accepts nothing leaves the session as it was. -/
theorem walk_reject (w : World) (watcher : pollWatcher) (s : Session) (changed : GoString)
    (info : FileInfo) (err : Option GoString) (st : Step)
    (h : walk w watcher s changed info err = some st) (hc : st.change = none) : st.s = s := by
  rcases walk_cases w watcher s changed info err with h0 | ⟨_, _, _, c, e1, _, _, heq⟩
  · rw [h0] at h
    cases h
    rfl
  · rw [heq] at h
    obtain ⟨s3, _, hst⟩ := Option.map_eq_some'.mp h
    subst hst
    cases hc

/-- The poll callback does not panic while the live channel is open. -/
theorem walk_total (w : World) (watcher : pollWatcher) (s : Session) (changed : GoString)
    (info : FileInfo) (err : Option GoString) (hopen : s.channel ∉ s.closed) :
    ∃ st, walk w watcher s changed info err = some st := by
  rcases walk_cases w watcher s changed info err with h0 | ⟨_, _, _, c, e1, _, _, heq⟩
  · exact ⟨_, h0⟩
  · rw [heq]
    rcases restart_cases ((s.mark (Truncate (w.now 72) Second)).log
      { Time := w.now 74, Text := w.ToUpper e1 ++ " changed ".toList ++ c.file })
      with ⟨_, hre⟩ | ⟨_, hin, _⟩ | ⟨_, _, hre⟩
    · rw [hre]; exact ⟨_, rfl⟩
    · have e := Core_log (s.mark (Truncate (w.now 72) Second))
        { Time := w.now 74, Text := w.ToUpper e1 ++ " changed ".toList ++ c.file }
      rw [Core_mark] at e
      simp only [Core, Prod.mk.injEq] at e
      rw [e.2.2.2.1, e.2.2.2.2.2] at hin
      exact absurd hin hopen
    · rw [hre]; exact ⟨_, rfl⟩

/-- The event handler does not panic while the live channel is open. -/
theorem onEvent_total (w : World) (s : Session) (ev : Event) (hopen : s.channel ∉ s.closed) :
    ∃ st, onEvent w s ev = some st := by
  rcases onEvent_cases w s ev with h0 | ⟨_, _, _, c, e1, _, _, heq⟩
  · exact ⟨_, h0⟩
  · rw [heq]
    rcases restart_cases (s.log
      { Time := w.now 151, Text := w.ToUpper e1 ++ " changed ".toList ++ c.file })
      with ⟨_, hre⟩ | ⟨_, hin, _⟩ | ⟨_, _, hre⟩
    · rw [hre]; exact ⟨_, rfl⟩
    · have e := Core_log s
        { Time := w.now 151, Text := w.ToUpper e1 ++ " changed ".toList ++ c.file }
      simp only [Core, Prod.mk.injEq] at e
      rw [e.2.2.2.1, e.2.2.2.2.2] at hin
      exact absurd hin hopen
    · rw [hre]; exact ⟨_, rfl⟩

/-- Poll mode: a modification second not after the watermark changes nothing. -/
theorem walk_rejects_old (w : World) (watcher : pollWatcher) (s : Session) (changed : GoString)
    (info : FileInfo) (err : Option GoString)
    (h : Truncate info.ModTime Second ≤ s.r.p.LastChangedOn) :
    walk w watcher s changed info err = some { s := s, ret := err, change := none } := by
  rcases walk_cases w watcher s changed info err with h0 | ⟨_, _, hlt, _⟩
  · exact h0
  · omega

/-- Event mode: a clock second not after the watermark changes nothing. -/
theorem onEvent_rejects_early (w : World) (s : Session) (ev : Event)
    (h : Truncate (w.now 135) Second ≤ s.r.p.LastChangedOn) :
    onEvent w s ev = some { s := s, ret := none, change := none } := by
  rcases onEvent_cases w s ev with h0 | ⟨hlt, _⟩
  · exact h0
  · omega

/-- Claim C1, as amended. Poll mode: a walk entry whose modification time,
truncated to whole seconds, is not after the watermark `LastChangedOn` leaves
the session exactly as it was (no log record, no call, no classified change).
Event mode: the check is on the clock, not the modification time; an event handled
at a clock reading whose truncation is not after the watermark leaves the
session exactly as it was. -/
theorem stale_change_rejected (w : World) (watcher : pollWatcher) (s : Session)
    (changed : GoString) (info : FileInfo) (err : Option GoString) (ev : Event) :
    (Truncate info.ModTime Second ≤ s.r.p.LastChangedOn →
      walk w watcher s changed info err = some { s := s, ret := err, change := none }) ∧
    (Truncate (w.now 135) Second ≤ s.r.p.LastChangedOn →
      onEvent w s ev = some { s := s, ret := none, change := none }) :=
  ⟨walk_rejects_old w watcher s changed info err, onEvent_rejects_early w s ev⟩

/-- Witness for C1: a file modified five seconds in, watermark at ten seconds, is
passed over by the poll callback; an event handled within the watermark second
is passed over by the event handler. -/
theorem stale_change_rejected_witness :
    walk (calmWorld (fun _ => 20000000000) (demoFs 5000000000)) demoPoll
        (demoSession 10000000000) "/w/src/main.go".toList
        { IsDir := false, ModTime := 5000000000 } none
      = some { s := demoSession 10000000000 } ∧
    onEvent (calmWorld (fun _ => 10999999999) (demoFs 5000000000))
        (demoSession 10000000000) demoEvent
      = some { s := demoSession 10000000000 } :=
  ⟨(stale_change_rejected (calmWorld (fun _ => 20000000000) (demoFs 5000000000)) demoPoll
      (demoSession 10000000000) "/w/src/main.go".toList
      { IsDir := false, ModTime := 5000000000 } none demoEvent).1 (by decide),
   (stale_change_rejected (calmWorld (fun _ => 10999999999) (demoFs 5000000000)) demoPoll
      (demoSession 10000000000) "/w/src/main.go".toList
      { IsDir := false, ModTime := 5000000000 } none demoEvent).2 (by decide)⟩

/-- Counterexample to C1 as stated: in event mode a file whose modification time
(5 s) is not after the watermark (10 s) is accepted when its create event is
handled at 20 s; the log record and the `routines` launch are produced. -/
theorem event_mode_accepts_stale_file :
    (demoFs 5000000000 demoCreate.Name).map Node.info = some { IsDir := false, ModTime := 5000000000 } ∧
    Truncate 5000000000 Second ≤ (demoSession 10000000000).r.p.LastChangedOn ∧
    (onEvent (calmWorld (fun _ => 20000000000) (demoFs 5000000000)) (demoSession 10000000000)
        demoCreate).map (fun st => st.change.map (fun c => (c.file, c.ext, c.path)))
      = some (some ("/w/src/main.go".toList, ".go".toList, "/w/src".toList)) ∧
    (onEvent (calmWorld (fun _ => 20000000000) (demoFs 5000000000)) (demoSession 10000000000)
        demoCreate).map (fun st => (st.s.r.p.Buffer.StdLog.map (fun o => o.Text), st.s.r.calls))
      = some (["GO changed /w/src/main.go".toList], [Call.routines 1]) := by
  decide

/-- Under the token invariant the live channel is open. -/
theorem TokInv_open {s : Session} (h : TokInv s) : s.channel ∉ s.closed :=
  fun hin => (h.2 _ hin).2 rfl

/-- An accepted change keeps the token invariant. -/
theorem Restarted_TokInv {s s1 : Session} (h : Restarted s s1) (hi : TokInv s) : TokInv s1 := by
  obtain ⟨_, _, _, htok⟩ := h
  by_cases hr : s.r.p.Run = true
  · simp only [hr, if_true] at htok
    obtain ⟨_, hclo, hcha, hmad⟩ := htok
    refine ⟨by omega, ?_⟩
    intro c hc
    rw [hclo] at hc
    rcases List.mem_cons.mp hc with rfl | hc
    · exact ⟨by have := hi.1; omega, by have := hi.1; omega⟩
    · have := hi.2 c hc
      exact ⟨by omega, by omega⟩
  · simp only [hr] at htok
    obtain ⟨hclo, hcha, hmad⟩ := htok
    refine ⟨by rw [hcha, hmad]; exact hi.1, ?_⟩
    intro c hc
    rw [hclo] at hc
    rw [hcha, hmad]
    exact hi.2 c hc

/-- What the poll callback does with a walk entry, for every input: it acts on
the classified path exactly when its checks are passed and the path qualifies. -/
theorem walk_change (w : World) (watcher : pollWatcher) (s : Session) (changed : GoString)
    (info : FileInfo) (h : TokInv s) :
    ∃ st, walk w watcher s changed info none = some st ∧
      st.change = (if watcher.isWatching changed = true ∧
                      s.r.p.LastChangedOn < Truncate info.ModTime Second
                    then pollDecision s.r.p.Watcher.Exts changed else none) ∧
      st.s.r.p.Watcher.Exts = s.r.p.Watcher.Exts ∧ TokInv st.s := by
  obtain ⟨st, hst⟩ := walk_total w watcher s changed info none (TokInv_open h)
  refine ⟨st, hst, ?_⟩
  rcases walk_cases w watcher s changed info none with h0 | ⟨_, hw, hlt, c, e1, hc, hq, heq⟩
  · rw [h0] at hst
    cases hst
    refine ⟨?_, rfl, h⟩
    by_cases hp : watcher.isWatching changed = true ∧
        s.r.p.LastChangedOn < Truncate info.ModTime Second
    · obtain ⟨c, hc, _⟩ := classify_total changed
      by_cases hq : qualifies c s.r.p.Watcher.Exts = true
      · exfalso
        have h1 := h0
        unfold walk at h1
        simp [hp.1, (After_iff _ _).mpr hp.2, hc, hq] at h1
        split at h1
        · cases h1
        · split at h1
          · cases h1
          · cases h1
      · simp [hp, pollDecision, hc, hq]
    · simp [hp]
  · have hne : st.change ≠ none := by
      rw [heq] at hst
      obtain ⟨s3, _, e⟩ := Option.map_eq_some'.mp hst
      rw [← e]
      simp
    obtain ⟨hR, _, _, _, _, c1, hc1, _, hch⟩ := walk_accept _ _ _ _ _ _ _ hst hne
    rw [hc] at hc1
    cases hc1
    refine ⟨?_, by rw [hR.1], Restarted_TokInv hR h⟩
    rw [hch]
    simp [hw, hlt, pollDecision, hc, hq]

/-- What the event handler does with an event, for every input: it acts on the
classified path exactly when its checks are passed and the path qualifies. -/
theorem onEvent_change (w : World) (s : Session) (ev : Event) (h : TokInv s) :
    ∃ st, onEvent w s ev = some st ∧
      st.change = (if s.r.p.LastChangedOn < Truncate (w.now 135) Second ∧
                      ev.Op &&& Chmod ≠ Chmod ∧ (w.fs ev.Name).isSome = true
                    then eventDecision s.r.p.Watcher.Exts ev.Name else none) ∧
      st.s.r.p.Watcher.Exts = s.r.p.Watcher.Exts ∧ TokInv st.s := by
  have hdec : eventDecision s.r.p.Watcher.Exts ev.Name
      = pollDecision s.r.p.Watcher.Exts ev.Name := rfl
  rw [hdec]
  obtain ⟨st, hst⟩ := onEvent_total w s ev (TokInv_open h)
  refine ⟨st, hst, ?_⟩
  rcases onEvent_cases w s ev with h0 | ⟨hlt, hop, hfs, c, e1, hc, hq, heq⟩
  · rw [h0] at hst
    cases hst
    refine ⟨?_, rfl, h⟩
    by_cases hp : s.r.p.LastChangedOn < Truncate (w.now 135) Second ∧
        ev.Op &&& Chmod ≠ Chmod ∧ (w.fs ev.Name).isSome = true
    · obtain ⟨c, hc, _⟩ := classify_total ev.Name
      by_cases hq : qualifies c s.r.p.Watcher.Exts = true
      · exfalso
        have h1 := h0
        rw [onEvent_unfold] at h1
        simp [(After_iff _ _).mpr hp.1, hp.2.1, hp.2.2, hc, hq] at h1
        split at h1
        · cases h1
        · split at h1
          · cases h1
          · cases h1
      · simp [hp, pollDecision, hc, hq]
    · simp [hp]
  · have hne : st.change ≠ none := by
      rw [heq] at hst
      obtain ⟨s3, _, e⟩ := Option.map_eq_some'.mp hst
      rw [← e]
      simp
    obtain ⟨hR, _, _, _, _, c1, hc1, _, hch⟩ := onEvent_accept _ _ _ _ hst hne
    rw [hc] at hc1
    cases hc1
    refine ⟨?_, by rw [hR.1], Restarted_TokInv hR h⟩
    rw [hch]
    simp [hlt, hop, hfs, pollDecision, hc, hq]

/-- The decisions of lines 62-71 and of lines 140-149 are the same function of
the path and the watched extensions. -/
theorem eventDecision_eq_pollDecision (exts : List GoString) (name : GoString) :
    eventDecision exts name = pollDecision exts name :=
  rfl

/-- One mutation handled by both modes: what each acts on, and when they agree. -/
theorem modes_step (watcher : pollWatcher) (sP sE : Session) (m : Mutation)
    (hx : sP.r.p.Watcher.Exts = sE.r.p.Watcher.Exts) (hP : TokInv sP) (hE : TokInv sE) :
    ∃ stP stE, walk m.w watcher sP m.changed m.info none = some stP ∧
      onEvent m.w sE { Name := m.changed, Op := m.op } = some stE ∧
      stP.change = (if pollPass watcher sP m then pollDecision sP.r.p.Watcher.Exts m.changed
                    else none) ∧
      stE.change = (if eventPass sE m then eventDecision sE.r.p.Watcher.Exts m.changed
                    else none) ∧
      stP.s.r.p.Watcher.Exts = stE.s.r.p.Watcher.Exts ∧ TokInv stP.s ∧ TokInv stE.s := by
  obtain ⟨stP, h1, c1, x1, t1⟩ := walk_change m.w watcher sP m.changed m.info hP
  obtain ⟨stE, h2, c2, x2, t2⟩ := onEvent_change m.w sE { Name := m.changed, Op := m.op } hE
  refine ⟨stP, stE, h1, h2, ?_, ?_, by rw [x1, x2]; exact hx, t1, t2⟩
  · rw [c1]
    simp only [pollPass, Bool.and_eq_true, decide_eq_true_eq]
  · rw [c2]
    simp only [eventPass, Bool.and_eq_true, decide_eq_true_eq, and_assoc]

/-- A list of mutations that both modes let through yields the same changes in
both modes: the decisions on the paths, in order. -/
theorem passing_changes (watcher : pollWatcher) (ms : List Mutation) : ∀ (sP sE : Session),
    sP.r.p.Watcher.Exts = sE.r.p.Watcher.Exts → TokInv sP → TokInv sE →
    allPass watcher sP sE ms = true →
    pollChanges watcher sP ms = eventChanges sE ms := by
  induction ms with
  | nil => intro sP sE _ _ _ _; rfl
  | cons m ms ih =>
    intro sP sE hx hP hE hg
    simp only [allPass, Bool.and_eq_true] at hg
    obtain ⟨hg1, hg2⟩ := hg
    obtain ⟨stP, stE, hstP, hstE, cP, cE, hx1, hP1, hE1⟩ := modes_step watcher sP sE m hx hP hE
    have hnP : pollNext watcher sP m = stP.s := by simp [pollNext, hstP]
    have hnE : eventNext sE m = stE.s := by simp [eventNext, hstE]
    rw [hnP, hnE] at hg2
    have ih1 := ih stP.s stE.s hx1 hP1 hE1 hg2
    simp only [passes, Bool.and_eq_true] at hg1
    have hch : stP.change = stE.change := by
      rw [cP, cE, eventDecision_eq_pollDecision, ← hx]
      simp [hg1.1, hg1.2]
    simp only [pollChanges, eventChanges, hstP, hstE]
    rw [hch, ih1]

/-- Claim C5, as amended. Take a poll session and an event session with the same
watched extensions, both with their restart channel open, and any mutation
(path, modification time, clock readings, operation bits). The poll callback
acts on the classified path exactly when the path is registered, its
modification second is after the watermark, and the path qualifies. The event
handler acts on the classified path exactly when the clock second is after the
watermark, the operation does not carry the chmod bit, the path can be
stat'ed, and the path qualifies. The classified change is the same in both.
So the two modes make the same decision when both sets of checks are passed,
and in general exactly when both are passed, both are failed, or the path
does not qualify. Hence a list of mutations each of which passes the checks of
both modes when it is handled yields the same ordered list of classified
changes in both modes. -/
theorem modes_agree_when_both_pass (watcher : pollWatcher) (sP sE : Session) (m : Mutation)
    (ms : List Mutation) (hx : sP.r.p.Watcher.Exts = sE.r.p.Watcher.Exts)
    (hP : TokInv sP) (hE : TokInv sE) :
    (∃ stP stE, walk m.w watcher sP m.changed m.info none = some stP ∧
      onEvent m.w sE { Name := m.changed, Op := m.op } = some stE ∧
      stP.change = (if pollPass watcher sP m then pollDecision sP.r.p.Watcher.Exts m.changed
                    else none) ∧
      stE.change = (if eventPass sE m then eventDecision sE.r.p.Watcher.Exts m.changed
                    else none) ∧
      (passes watcher sP sE m = true → stP.change = stE.change) ∧
      (stP.change = stE.change ↔
        (pollPass watcher sP m = eventPass sE m ∨
          pollDecision sP.r.p.Watcher.Exts m.changed = none))) ∧
    (allPass watcher sP sE ms = true → pollChanges watcher sP ms = eventChanges sE ms) := by
  constructor
  · obtain ⟨stP, stE, h1, h2, cP, cE, _⟩ := modes_step watcher sP sE m hx hP hE
    have hd : eventDecision sE.r.p.Watcher.Exts m.changed
        = pollDecision sP.r.p.Watcher.Exts m.changed := by
      rw [eventDecision_eq_pollDecision, hx]
    refine ⟨stP, stE, h1, h2, cP, cE, ?_, ?_⟩
    · intro hg
      simp only [passes, Bool.and_eq_true] at hg
      rw [cP, cE, hd]
      simp [hg.1, hg.2]
    · rw [cP, cE, hd]
      cases hp : pollPass watcher sP m <;> cases he : eventPass sE m <;>
        simp [eq_comm]
  · intro hg
    exact passing_changes watcher ms sP sE hx hP hE hg

/-- Witness for C5: two writes of `/w/src/main.go`, two seconds apart, give the
same two classified changes in both modes. -/
theorem modes_agree_when_both_pass_witness :
    pollChanges demoPoll (demoSession 10000000000) demoMutations
      = eventChanges (demoSession 10000000000) demoMutations ∧
    (pollChanges demoPoll (demoSession 10000000000) demoMutations).map (fun c => (c.file, c.ext, c.path))
      = [("/w/src/main.go".toList, ".go".toList, "/w/src".toList),
         ("/w/src/main.go".toList, ".go".toList, "/w/src".toList)] :=
  ⟨(modes_agree_when_both_pass demoPoll (demoSession 10000000000) (demoSession 10000000000)
      { w := calmWorld (fun _ => 20000000000) (demoFs 19000000000),
        changed := "/w/src/main.go".toList, info := { IsDir := false, ModTime := 19000000000 }, op := 2 }
      demoMutations rfl (by unfold TokInv; decide) (by unfold TokInv; decide)).2 (by decide),
   by decide⟩

/-- The chmod bit drops an event whatever else it carries: for a write that also
carries the chmod bit (operation 18) on a freshly modified, registered file the
poll callback accepts and the event handler does not. -/
theorem chmod_bit_drops_event :
    (walk (calmWorld (fun _ => 20000000000) (demoFs 19000000000)) demoPoll
        (demoSession 10000000000) "/w/src/main.go".toList
        { IsDir := false, ModTime := 19000000000 } none).map (fun st => st.change.isSome)
      = some true ∧
    (onEvent (calmWorld (fun _ => 20000000000) (demoFs 19000000000)) (demoSession 10000000000)
        demoWriteChmod).map (fun st => st.change.isSome)
      = some false := by
  decide

/-- Counterexample to C5 as stated: same registered path, watermark (10 s), clock
(20 s) and modification time (5 s); the poll callback rejects, the event
handler accepts. -/
theorem modes_disagree_on_stale_file :
    demoPoll.isWatching "/w/src/main.go".toList = true ∧
    (walk (calmWorld (fun _ => 20000000000) (demoFs 5000000000)) demoPoll
        (demoSession 10000000000) "/w/src/main.go".toList
        { IsDir := false, ModTime := 5000000000 } none).map (fun st => st.change.isSome)
      = some false ∧
    (onEvent (calmWorld (fun _ => 20000000000) (demoFs 5000000000)) (demoSession 10000000000)
        demoCreate).map (fun st => st.change.isSome)
      = some true := by
  decide

/-! ## The scan and the start-up -/

/-- The first segment starts with a dot exactly when the path does; a later one exactly when `/.` occurs in the path. -/
theorem segments_spec : ∀ (p : GoString), ∃ s0 r0, segments p = s0 :: r0 ∧
    (s0.head? = some '.' ↔ p.head? = some '.') ∧
    ((∃ seg ∈ r0, seg.head? = some '.') ↔ ∃ k, k ≤ p.length ∧ ['/', '.'] <+: p.drop k) := by
  intro p
  induction p with
  | nil =>
    refine ⟨[], [], rfl, by simp, ?_⟩
    constructor
    · rintro ⟨seg, hs, _⟩; cases hs
    · rintro ⟨k, hk, hp⟩
      have := hp.length_le
      simp at this
  | cons c cs ih =>
    obtain ⟨s0, r0, hseg, hh, hr⟩ := ih
    by_cases hc : c = '/'
    · subst hc
      refine ⟨[], s0 :: r0, by simp [segments, hseg], by simp, ?_⟩
      constructor
      · rintro ⟨seg, hs, hd⟩
        rcases List.mem_cons.mp hs with rfl | hs
        · refine ⟨0, Nat.zero_le _, ?_⟩
          have := hh.mp hd
          cases cs with
          | nil => simp at this
          | cons d ds =>
            simp at this
            subst this
            simp
        · obtain ⟨k, hk, hp⟩ := hr.mp ⟨seg, hs, hd⟩
          exact ⟨k + 1, by simpa using hk, by simpa using hp⟩
      · rintro ⟨k, hk, hp⟩
        cases k with
        | zero =>
          refine ⟨s0, List.mem_cons_self _ _, hh.mpr ?_⟩
          cases cs with
          | nil =>
            have := hp.length_le
            simp at this
          | cons d ds =>
            simp at hp
            simp [← hp]
        | succ k =>
          obtain ⟨seg, hs, hd⟩ := hr.mpr ⟨k, by simpa using hk, by simpa using hp⟩
          exact ⟨seg, List.mem_cons_of_mem _ hs, hd⟩
    · refine ⟨c :: s0, r0, by simp [segments, hseg, hc], by simp, ?_⟩
      rw [hr]
      constructor
      · rintro ⟨k, hk, hp⟩
        exact ⟨k + 1, by simpa using hk, by simpa using hp⟩
      · rintro ⟨k, hk, hp⟩
        cases k with
        | zero =>
          exfalso
          simp at hp
          exact hc hp.1.symm
        | succ k => exact ⟨k, by simpa using hk, by simpa using hp⟩

/-- The two string tests of line 328 say what the spec calls hidden. -/
theorem hiddenSegment_iff (path : GoString) :
    hiddenSegment path = true ↔ (HasPrefix path ".".toList = true ∨ Contains path "/.".toList = true) := by
  obtain ⟨s0, r0, hseg, hh, hr⟩ := segments_spec path
  rw [HasPrefix_dot, Contains_iff]
  unfold hiddenSegment
  rw [hseg, List.any_cons, Bool.or_eq_true, List.any_eq_true]
  constructor
  · rintro (h | ⟨seg, hs, hd⟩)
    · left; exact hh.mp (by simpa using h)
    · right; exact hr.mp ⟨seg, hs, by simpa using hd⟩
  · rintro (h | h)
    · left; simpa using hh.mpr h
    · right
      obtain ⟨seg, hs, hd⟩ := hr.mpr h
      exact ⟨seg, hs, by simpa using hd⟩

/-- The condition of line 328 in the words of the spec, without the restriction to files. -/
theorem shouldAdd_iff (p : Project) (path : GoString) (info : FileInfo) :
    shouldAdd p path info = true ↔
      (info.IsDir = true ∧ hiddenSegment path = false ∧ Ext path = []) ∨ Ext path ∈ p.Watcher.Exts := by
  have hh : hiddenSegment path = false ↔
      (HasPrefix path ".".toList = false ∧ Contains path "/.".toList = false) := by
    have := hiddenSegment_iff path
    cases h1 : hiddenSegment path <;> cases h2 : HasPrefix path ".".toList <;>
      cases h3 : Contains path "/.".toList <;> simp_all
  rw [hh]
  have hm : p.Watcher.Exts.contains (Ext path) = true ↔ Ext path ∈ p.Watcher.Exts := by simp
  unfold shouldAdd inArray
  simp only [Bool.or_eq_true, Bool.and_eq_true, Bool.not_eq_true', beq_iff_eq, hm,
    List.length_eq_zero]
  tauto

/-- A path whose `Add` succeeded is held by the watcher. -/
theorem has_after_Add (w : World) (wa : WatcherImpl) (path : GoString)
    (hok : (wa.Add w path).2 = none) : (wa.Add w path).1.has path = true := by
  cases wa with
  | poll pw => simp [WatcherImpl.Add, WatcherImpl.has, pollWatcher.Add, pollWatcher.isWatching,
      List.lookup]
  | fsnotify added =>
    cases h : w.fsAdd path with
    | some e => simp [WatcherImpl.Add, h] at hok
    | none => simp [WatcherImpl.Add, WatcherImpl.has, h]

/-- The scan callback hands an entry that is not ignored to `Add` exactly when `shouldAdd` holds. -/
theorem walksFn_watcher (w : World) (sc : Scan) (path : GoString) (info : FileInfo)
    (err : Option GoString) (hig : ignore sc.r.p path = false) :
    (walksFn w sc path info err).1.watcher =
      if shouldAdd sc.r.p path info then (sc.watcher.Add w path).1 else sc.watcher := by
  unfold walksFn
  simp only [hig, Bool.not_false, if_true]
  by_cases hs : shouldAdd sc.r.p path info = true
  · simp only [hs, if_true]
    split
    · rfl
    · split <;> rfl
  · simp [hs]

/-- Claim C7, as amended. For a visited entry that matches no ignore rule, is not
yet held by the watcher and whose `Add` does not fail: after the scan callback
the watcher holds the entry if and only if it is a directory that is not hidden
and has no extension, or its extension is in the watched set, be it a file or
a directory. -/
theorem scan_registers (w : World) (sc : Scan) (path : GoString) (info : FileInfo)
    (err : Option GoString) (hig : ignore sc.r.p path = false)
    (hnew : sc.watcher.has path = false) (hok : (sc.watcher.Add w path).2 = none) :
    (walksFn w sc path info err).1.watcher.has path = true ↔
      (info.IsDir = true ∧ hiddenSegment path = false ∧ Ext path = []) ∨
        Ext path ∈ sc.r.p.Watcher.Exts := by
  rw [walksFn_watcher w sc path info err hig, ← shouldAdd_iff]
  by_cases hs : shouldAdd sc.r.p path info = true
  · simp [hs, has_after_Add w sc.watcher path hok]
  · simp [hs, hnew]

/-- Witness for C7: the directory `/w/src` is registered. -/
theorem scan_registers_witness :
    (walksFn emptyWorld
        { r := { p := demoProject }, watcher := .poll {} } "/w/src".toList
        { IsDir := true, ModTime := 0 } none).1.watcher.has "/w/src".toList = true :=
  (scan_registers emptyWorld
      { r := { p := demoProject }, watcher := .poll {} } "/w/src".toList
      { IsDir := true, ModTime := 0 } none (by decide) (by decide) (by decide)).mpr
    (Or.inl (by decide))

/-- Counterexample to C7 as stated: the directory `/w/src/pkg.go` matches no
ignore rule and is registered, though it is neither a directory without
extension nor a file. -/
theorem scan_registers_dotted_directory :
    ignore demoProject "/w/src/pkg.go".toList = false ∧
    (walksFn emptyWorld
        { r := { p := demoProject }, watcher := .poll {} } "/w/src/pkg.go".toList
        { IsDir := true, ModTime := 0 } none).1.watcher.has "/w/src/pkg.go".toList = true ∧
    specRegisters demoProject.Watcher.Exts "/w/src/pkg.go".toList { IsDir := true, ModTime := 0 }
      = false := by
  decide

/-- Claim C8, the code at the failing input. The root `/w/src` does not exist and
`fsnotify.NewWatcher` succeeded. `walks` returns the error
`/w/src path doesn't exist`; poll mode ends in `log.Fatalln` with that message,
but event mode reads `err.Error()` on the nil error of `NewWatcher` and
panics. -/
theorem missing_root_start :
    emptyWorld.NewWatcher = none ∧
    (walks emptyWorld { p := demoProject } (.fsnotify [])).2
      = some "/w/src path doesn't exist".toList ∧
    watchingStart emptyWorld demoProject = Start.panic ∧
    watchByPollingStart emptyWorld demoProject
      = Start.fatal "/w/src path doesn't exist".toList := by
  decide

end Realize
